import Mathlib

/-!
# LSH index orchestration (`lsh/lsh.go`): `Train` and `Search`

Shallow embedding of `LSHIndex.Train` and `LSHIndex.Search`.

* `float64` values are modelled by rationals (`ℚ`); only comparisons of
  distances with `0` and with the threshold are used by `Search`.
* A Go `error` is `Option String`; `none` is `nil`.
* Goroutines are modelled by interleaving: every access to shared state (the
  channels, the dedup set, the store) is one atomic step of a task, and a
  schedule is a list of actions saying who moves next.
* The store (`store.Store`), the hasher (`getHashes`), the metric constants and
  the distance functions are not defined in `lsh.go`; `Search` and `Train` take
  them as parameters (`Store`, `Deps`).  Concrete inputs use the in-memory
  store, the hyperplane hasher and the distance functions of the spec.
* The dedup set (`NewStringSet`, `Get`, `Set`) is a list of identifiers: `Get`
  is membership and `Set` an idempotent insert, each one atomic step.
* The outcome of `Search` is fixed once the caller has returned, so the model
  stops there; goroutines that are still running do not move any more.
-/

namespace LSH

/-- A `[]float64`. -/
abbrev FloatVec := List ℚ

/-- A Go `error`; `none` is `nil`. -/
abbrev GoError := Option String

/-- The package variable `distanceErr` (lsh.go:10). -/
def distanceErr : GoError := some "Distance can't be calculated"

/-- The struct `Record` (lsh.go:14). -/
structure Record where
  ID : String
  Vec : FloatVec
deriving DecidableEq

/-- The fields of `lshConfig` (lsh.go:19) that `Train` and `Search` read. -/
structure lshConfig where
  DistanceMetric : Int
  DistanceThrsh : ℚ
  MaxNN : Int

/-- What `lsh.go` uses from the rest of the package without defining it: the
metric constants, the two distance functions and the hasher's `getHashes`,
which returns one `(perm, hash)` entry per permutation. -/
structure Deps where
  Cosine : Int
  Euclidian : Int
  CosineSim : FloatVec → FloatVec → ℚ
  L2 : FloatVec → FloatVec → ℚ
  getHashes : FloatVec → List (Nat × Nat)

/-- The interface `store.Store` as `lsh.go` calls it, over a store state `σ`
and an iterator type `ι`.  Writes return the new state and an error; reads
return a value and an error. -/
structure Store (σ ι : Type) where
  Clear : σ → σ × GoError
  SetVector : String → FloatVec → σ → σ × GoError
  GetVector : String → σ → FloatVec × GoError
  SetHash : Nat → Nat → String → σ → σ × GoError
  GetHashIterator : Nat → Nat → σ → ι × GoError
  Next : ι → (String × GoError) × ι

/-! ## Search (lsh.go:91-154) -/

/-- Program counter of one permutation goroutine (lsh.go:103-140).  The
constructors carry the live locals. -/
inductive PC (ι : Type) where
  /-- Before `if len(closest) == maxNN` (line 104). -/
  | start
  /-- Before `lsh.index.GetHashIterator(perm, hash)` (line 107). -/
  | openIter
  /-- Before the init statement `id, err := iter.Next()` (line 112). -/
  | callNext (iter : ι)
  /-- At the loop condition with `err == nil`, before `closestSet.Get(id)`
  (lines 112-113).  The loop has no post statement and the body's `err` is a
  new variable, so `id` and `err` never change here. -/
  | loopTop (id : String)
  /-- Before `lsh.index.GetVector(id)` (line 116). -/
  | getVec (id : String)
  /-- Before `closestSet.Set(id)` (line 133). -/
  | mark (id : String) (vec : FloatVec)
  /-- Before `closest <- Record` (line 134). -/
  | send (id : String) (vec : FloatVec)
  /-- Before the second `if len(closest) == maxNN` (line 135). -/
  | lenCheck (id : String)
  /-- Before `errs <- err` at line `line` (109, 118 or 129). -/
  | sendErr (line : Nat) (err : GoError)
  /-- The goroutine has returned by the `return` of line `line` (105, 110, 119,
  130 or 136), or has left the loop and reached the end of the function
  (line 140). -/
  | done (line : Nat)

/-- What a goroutine puts on a channel: a match on `closest` or an error on
`errs`. -/
inductive Event where
  | found (r : Record)
  | error (err : GoError)
deriving DecidableEq

/-- One permutation goroutine: its arguments, its program counter, and two
fields that only record history: the number of calls of `iter.Next` and the
events sent so far. -/
structure Task (ι : Type) where
  perm : Nat
  hash : Nat
  pc : PC ι
  nexts : Nat
  sent : List Event

/-- The calling goroutine: in the collection loop (lines 143-152) with `k`
iterations to go, or returned. -/
inductive Main where
  | collecting (k : Nat) (closestArr : List Record)
  | returned (closestArr : List Record)
  | failed (err : GoError)
deriving DecidableEq

/-- Shared state of one `Search` call: the goroutines, the dedup set
`closestSet`, the buffered channels `closest` and `errs` with their capacity
`len(hashes)`, and the calling goroutine. -/
structure State (ι : Type) where
  tasks : List (Task ι)
  closestSet : List String
  closest : List Record
  errs : List GoError
  cap : Nat
  main : Main

/-- Lines 121-127: `dist` starts at `-1` and is overwritten for the two known
metrics. -/
def calcDist (d : Deps) (cfg : lshConfig) (vec query : FloatVec) : ℚ :=
  if cfg.DistanceMetric = d.Cosine then d.CosineSim vec query
  else if cfg.DistanceMetric = d.Euclidian then d.L2 vec query
  else -1

/-- Lines 116-138 after the vector is fetched: where the goroutine goes. -/
def afterFetch {ι : Type} (d : Deps) (cfg : lshConfig) (query : FloatVec)
    (id : String) (vec : FloatVec) (err : GoError) : PC ι :=
  if err ≠ none then PC.sendErr 118 err
  else if calcDist d cfg vec query < 0 then PC.sendErr 129 distanceErr
  else if calcDist d cfg vec query ≤ cfg.DistanceThrsh then PC.mark id vec
  else PC.loopTop id

/-- One atomic step of a permutation goroutine; `none` when it cannot move
(it has returned, or its send would block). -/
def stepTask {σ ι : Type} (st : Store σ ι) (db : σ) (d : Deps) (cfg : lshConfig)
    (query : FloatVec) (s : State ι) (t : Task ι) : Option (Task ι × State ι) :=
  match t.pc with
  | PC.start =>
    if (s.closest.length : Int) = cfg.MaxNN then some ({ t with pc := PC.done 105 }, s)
    else some ({ t with pc := PC.openIter }, s)
  | PC.openIter =>
    let r := st.GetHashIterator t.perm t.hash db
    if r.2 ≠ none then some ({ t with pc := PC.sendErr 109 r.2 }, s)
    else some ({ t with pc := PC.callNext r.1 }, s)
  | PC.callNext iter =>
    let r := st.Next iter
    if r.1.2 = none then some ({ t with pc := PC.loopTop r.1.1, nexts := t.nexts + 1 }, s)
    else some ({ t with pc := PC.done 140, nexts := t.nexts + 1 }, s)
  | PC.loopTop id =>
    if id ∈ s.closestSet then some ({ t with pc := PC.loopTop id }, s)
    else some ({ t with pc := PC.getVec id }, s)
  | PC.getVec id =>
    let r := st.GetVector id db
    some ({ t with pc := afterFetch d cfg query id r.1 r.2 }, s)
  | PC.mark id vec =>
    some ({ t with pc := PC.send id vec },
          { s with closestSet := if id ∈ s.closestSet then s.closestSet else id :: s.closestSet })
  | PC.send id vec =>
    if s.closest.length < s.cap then
      some ({ t with pc := PC.lenCheck id, sent := t.sent ++ [Event.found { ID := id, Vec := vec }] },
            { s with closest := s.closest ++ [{ ID := id, Vec := vec }] })
    else none
  | PC.lenCheck id =>
    if (s.closest.length : Int) = cfg.MaxNN then some ({ t with pc := PC.done 136 }, s)
    else some ({ t with pc := PC.loopTop id }, s)
  | PC.sendErr line err =>
    if s.errs.length < s.cap then
      some ({ t with pc := PC.done (line + 1), sent := t.sent ++ [Event.error err] },
            { s with errs := s.errs ++ [err] })
    else none
  | PC.done _ => none

/-- Who moves next: goroutine `i`, or the caller taking one branch of its
`select` (lines 144-151), or the caller leaving the loop (line 153). -/
inductive Action where
  | task (i : Nat)
  | recvClosest
  | recvErr
  | ret
deriving DecidableEq

/-- One action; `none` when the action is not enabled in `s`.  A receive is
enabled when its channel holds a value (`select` takes either ready branch);
nothing is enabled once the caller has returned. -/
def exec {σ ι : Type} (st : Store σ ι) (db : σ) (d : Deps) (cfg : lshConfig)
    (query : FloatVec) (s : State ι) : Action → Option (State ι)
  | Action.task i =>
    match s.main, s.tasks[i]? with
    | Main.collecting _ _, some t =>
      match stepTask st db d cfg query s t with
      | some (t', s') => some { s' with tasks := s'.tasks.set i t' }
      | none => none
    | _, _ => none
  | Action.recvClosest =>
    match s.main, s.closest with
    | Main.collecting (k + 1) arr, res :: rest =>
      some { s with closest := rest, main := Main.collecting k (arr ++ [res]) }
    | _, _ => none
  | Action.recvErr =>
    match s.main, s.errs with
    | Main.collecting (k + 1) arr, err :: rest =>
      if err ≠ none then some { s with errs := rest, main := Main.failed err }
      else some { s with errs := rest, main := Main.collecting k arr }
    | _, _ => none
  | Action.ret =>
    match s.main with
    | Main.collecting 0 arr => some { s with main := Main.returned arr }
    | _ => none

/-- Run a schedule from `s`; `none` if some action is not enabled. -/
def run {σ ι : Type} (st : Store σ ι) (db : σ) (d : Deps) (cfg : lshConfig)
    (query : FloatVec) : List Action → State ι → Option (State ι)
  | [], s => some s
  | a :: as, s =>
    match exec st db d cfg query s a with
    | some s' => run st db d cfg query as s'
    | none => none

/-- Lines 92-103: hash the query, make the set and the two channels of
capacity `len(hashes)`, start one goroutine per entry of `hashes`. -/
def Search.init (ι : Type) (d : Deps) (query : FloatVec) : State ι :=
  { tasks := (d.getHashes query).map
      (fun ph => { perm := ph.1, hash := ph.2, pc := PC.start, nexts := 0, sent := [] })
    closestSet := []
    closest := []
    errs := []
    cap := (d.getHashes query).length
    main := Main.collecting (d.getHashes query).length [] }

/-- The outcome `(records, err)` of a `Search` call that ran under schedule
`sched`, if the caller has returned by the end of it. -/
def Search {σ ι : Type} (st : Store σ ι) (db : σ) (d : Deps) (cfg : lshConfig)
    (query : FloatVec) (sched : List Action) : Option (List Record × GoError) :=
  match run st db d cfg query sched (Search.init ι d query) with
  | some s =>
    match s.main with
    | Main.returned arr => some (arr, none)
    | Main.failed err => some ([], err)
    | Main.collecting _ _ => none
  | none => none

/-! ## Train (lsh.go:69-88) -/

/-- A call of a writing store method made by `Train`. -/
inductive Call where
  | clear
  | setVector (id : String) (vec : FloatVec)
  | setHash (perm hash : Nat) (id : String)
deriving DecidableEq

/-- One record goroutine (lsh.go:77-84): its record, whether line 79
(`SetVector`) has run, and the entries of `hashes` the `range` loop of line 80
has not visited yet. -/
structure TrainTask where
  record : Record
  vecSet : Bool
  hashes : List (Nat × Nat)

/-- Whether the goroutine has reached `wg.Done()` (line 83). -/
def TrainTask.finished (t : TrainTask) : Bool :=
  t.vecSet && t.hashes.isEmpty

/-- State of one `Train` call: the store, the goroutines, the store calls made
so far, and the value returned (`none` while the call is running). -/
structure TrainState (σ : Type) where
  db : σ
  tasks : List TrainTask
  calls : List Call
  ret : Option GoError

/-- Who moves next in `Train`: goroutine `i` runs line 79; goroutine `i` runs
line 81 for the `j`-th entry it has not visited (a Go map is ranged over in no
fixed order); `wg.Wait()` returns and `Train` returns `nil` (lines 86-87). -/
inductive TrainAction where
  | setVector (i : Nat)
  | setHash (i j : Nat)
  | wait
deriving DecidableEq

/-- Lines 70-76: `Clear`, the early return on its error, and the start of one
goroutine per record. -/
def Train.init {σ ι : Type} (st : Store σ ι) (db : σ) (d : Deps)
    (records : List Record) : TrainState σ :=
  if (st.Clear db).2 ≠ none then
    { db := (st.Clear db).1, tasks := [], calls := [Call.clear], ret := some (st.Clear db).2 }
  else
    { db := (st.Clear db).1
      tasks := records.map
        (fun r => { record := r, vecSet := false, hashes := d.getHashes r.Vec })
      calls := [Call.clear]
      ret := none }

/-- One action of `Train`; `none` when it is not enabled.  The errors returned
by `SetVector` and `SetHash` are dropped, as in lines 79 and 81. -/
def trainExec {σ ι : Type} (st : Store σ ι) (s : TrainState σ) :
    TrainAction → Option (TrainState σ)
  | TrainAction.setVector i =>
    match s.ret, s.tasks[i]? with
    | none, some t =>
      if t.vecSet then none
      else some
        { s with
          db := (st.SetVector t.record.ID t.record.Vec s.db).1
          tasks := s.tasks.set i { t with vecSet := true }
          calls := s.calls ++ [Call.setVector t.record.ID t.record.Vec] }
    | _, _ => none
  | TrainAction.setHash i j =>
    match s.ret, s.tasks[i]? with
    | none, some t =>
      match t.vecSet, t.hashes[j]? with
      | true, some ph => some
        { s with
          db := (st.SetHash ph.1 ph.2 t.record.ID s.db).1
          tasks := s.tasks.set i { t with hashes := t.hashes.eraseIdx j }
          calls := s.calls ++ [Call.setHash ph.1 ph.2 t.record.ID] }
      | _, _ => none
    | _, _ => none
  | TrainAction.wait =>
    match s.ret with
    | none => if s.tasks.all TrainTask.finished then some { s with ret := some none } else none
    | some _ => none

/-- Run a `Train` schedule from `s`; `none` if some action is not enabled. -/
def trainRun {σ ι : Type} (st : Store σ ι) :
    List TrainAction → TrainState σ → Option (TrainState σ)
  | [], s => some s
  | a :: as, s =>
    match trainExec st s a with
    | some s' => trainRun st as s'
    | none => none

/-- The value `Train` returns and the store it leaves under schedule `sched`,
if it has returned by the end of it. -/
def Train {σ ι : Type} (st : Store σ ι) (db : σ) (d : Deps) (records : List Record)
    (sched : List TrainAction) : Option (GoError × σ) :=
  match trainRun st sched (Train.init st db d records) with
  | some s =>
    match s.ret with
    | some err => some (err, s.db)
    | none => none
  | none => none

/-- Store calls still to be made by the goroutines of `Train`. -/
def trainWork (tasks : List TrainTask) : Nat :=
  (tasks.map (fun t => (if t.vecSet then 0 else 1) + t.hashes.length)).sum

/-! ## The parts of the package outside `lsh.go`, modelled from the spec -/

/-- Modelled from the spec: the storage backend (package `store`), §6
"Storage contract", as an in-memory store that never fails on a write.
`vectors` is the key-value store for vectors, `buckets` the members of each
`(permutation, hash)` bucket in insertion order. -/
structure MemStore where
  vectors : String → Option FloatVec
  buckets : Nat → Nat → List String

/-- Modelled from the spec: the operations of the storage contract (§6) on
`MemStore`: `clear` drops everything, `setVector` upserts, `getVector` errors
if the vector is absent, `setHash` adds an identifier to a bucket, and the
iterator yields the bucket's members and then an end-of-sequence error. -/
def memStore : Store MemStore (List String) where
  Clear := fun _ => ({ vectors := fun _ => none, buckets := fun _ _ => [] }, none)
  SetVector := fun id vec s =>
    ({ s with vectors := fun k => if k = id then some vec else s.vectors k }, none)
  GetVector := fun id s =>
    match s.vectors id with
    | some vec => (vec, none)
    | none => ([], some "vector not found")
  SetHash := fun perm hash id s =>
    ({ s with
       buckets := fun p h =>
         if p = perm ∧ h = hash then
           (if id ∈ s.buckets p h then s.buckets p h else s.buckets p h ++ [id])
         else s.buckets p h }, none)
  GetHashIterator := fun perm hash s => (s.buckets perm hash, none)
  Next := fun iter =>
    match iter with
    | [] => (("", some "end of bucket"), [])
    | id :: rest => ((id, none), rest)

/-- Modelled from the spec: a storage backend whose writes fail (§6: every
operation may report a storage error).  `Clear` succeeds; `SetVector` and
`SetHash` report an error and store nothing. -/
def failingStore : Store MemStore (List String) :=
  { memStore with
    SetVector := fun _ _ s => (s, some "write failed")
    SetHash := fun _ _ _ s => (s, some "write failed") }

/-- Modelled from the spec: one permutation instance of the hasher (§3 "Hasher
state"): its hyperplanes and one bias per hyperplane. -/
structure hasherInstance where
  Planes : List FloatVec
  Bias : List ℚ

/-- Modelled from the spec: the dot product used by the hasher and the
distance module. -/
def dot (a b : FloatVec) : ℚ :=
  (List.zipWith (fun x y => x * y) a b).sum

/-- Modelled from the spec: the hash of one permutation (§4.1 `getHashes`): bit
`i` is 1 if `dot(vector, hyperplane_i) + bias_i > 0`, packed into a 64-bit
value. -/
def hasherInstance.getHash (inst : hasherInstance) (v : FloatVec) : Nat :=
  (((inst.Planes.zip inst.Bias).enum.map
      (fun e => if dot v e.2.1 + e.2.2 > 0 then 2 ^ e.1 else 0)).sum) % 2 ^ 64

/-- Modelled from the spec: `hasher.getHashes` (§4.1), the mapping from
permutation index to hash value. -/
def getHashes (instances : List hasherInstance) (v : FloatVec) : List (Nat × Nat) :=
  instances.enum.map (fun e => (e.1, e.2.getHash v))

/-- Modelled from the spec: `L2` (§4.4), the norm of the difference.  The
square root is `Rat.sqrt`, the rational square root rounded down: the value is
the L2 norm exactly when the sum of squares is the square of a rational, as at
every point used below (0 and 1), and a lower approximation elsewhere. -/
def L2 (a b : FloatVec) : ℚ :=
  Rat.sqrt ((List.zipWith (fun x y => (x - y) * (x - y)) a b).sum)

/-- Modelled from the spec: `CosineSim` (§4.4), the cosine of the angle
between the vectors.  The norms use `Rat.sqrt`, so the value is the cosine
exactly when both norms are rational, as at the point used below (`-1` for
opposite unit vectors), and an approximation elsewhere; for a zero vector the
value is 0, where the float division gives NaN. -/
def CosineSim (a b : FloatVec) : ℚ :=
  dot a b / (Rat.sqrt (dot a a) * Rat.sqrt (dot b b))

/-- Modelled from the spec: the package parts `lsh.go` relies on, for a hasher
with the given permutation instances.  The metric constants are distinct
integers; their values do not matter. -/
def specDeps (instances : List hasherInstance) : Deps where
  Cosine := 0
  Euclidian := 1
  CosineSim := CosineSim
  L2 := L2
  getHashes := getHashes instances

/-! ## Invariant of `Search` -/

section SearchInv

variable {σ ι : Type}

/-- The bucket `(perm, hash)` opens without error and the first `Next` of its
iterator yields `id` with a `nil` error. -/
def First (st : Store σ ι) (db : σ) (perm hash : Nat) (id : String) : Prop :=
  (st.GetHashIterator perm hash db).2 = none ∧
  (st.Next (st.GetHashIterator perm hash db).1).1 = (id, none)

/-- The record `r` is what lines 112-134 emit for the bucket `(perm, hash)`: its
ID is the first identifier of the bucket, its vector is the stored one, and the
computed value is in `[0, DistanceThrsh]`. -/
def Candidate (st : Store σ ι) (db : σ) (d : Deps) (cfg : lshConfig) (query : FloatVec)
    (perm hash : Nat) (r : Record) : Prop :=
  First st db perm hash r.ID ∧ st.GetVector r.ID db = (r.Vec, none) ∧
  0 ≤ calcDist d cfg r.Vec query ∧ calcDist d cfg r.Vec query ≤ cfg.DistanceThrsh

/-- The error `e` is one a goroutine for bucket `(perm, hash)` can report: the
distance error for a fetched vector whose computed value is negative, the
error of `GetHashIterator`, or the error of `GetVector` for the bucket's first
identifier. -/
def TaskErr (st : Store σ ι) (db : σ) (d : Deps) (cfg : lshConfig) (query : FloatVec)
    (perm hash : Nat) (e : GoError) : Prop :=
  (e = distanceErr ∧ ∃ id vec, First st db perm hash id ∧ st.GetVector id db = (vec, none) ∧
    calcDist d cfg vec query < 0) ∨
  e = (st.GetHashIterator perm hash db).2 ∨
  ∃ id, First st db perm hash id ∧ e = (st.GetVector id db).2

/-- The matches among the events a goroutine has sent. -/
def sentRecords (t : Task ι) : List Record :=
  t.sent.filterMap (fun ev => match ev with
    | Event.found r => some r
    | Event.error _ => none)

/-- What holds of a goroutine at each program point, given the dedup set. -/
def TaskInv (st : Store σ ι) (db : σ) (d : Deps) (cfg : lshConfig) (query : FloatVec)
    (set : List String) (t : Task ι) : Prop :=
  (∀ r, Event.found r ∈ t.sent → Candidate st db d cfg query t.perm t.hash r) ∧
  (∀ e, Event.error e ∈ t.sent → e ≠ none ∧ TaskErr st db d cfg query t.perm t.hash e) ∧
  t.nexts ≤ 1 ∧ t.sent.length ≤ 1 ∧
  match t.pc with
  | PC.start => t.nexts = 0 ∧ t.sent = []
  | PC.openIter => t.nexts = 0 ∧ t.sent = []
  | PC.callNext iter => t.nexts = 0 ∧ t.sent = [] ∧
      (st.GetHashIterator t.perm t.hash db).2 = none ∧
      iter = (st.GetHashIterator t.perm t.hash db).1
  | PC.loopTop id => t.nexts = 1 ∧ First st db t.perm t.hash id ∧ (t.sent = [] ∨ id ∈ set)
  | PC.getVec id => t.nexts = 1 ∧ First st db t.perm t.hash id ∧ t.sent = []
  | PC.mark id vec => t.nexts = 1 ∧ t.sent = [] ∧
      Candidate st db d cfg query t.perm t.hash { ID := id, Vec := vec }
  | PC.send id vec => t.nexts = 1 ∧ t.sent = [] ∧ id ∈ set ∧
      Candidate st db d cfg query t.perm t.hash { ID := id, Vec := vec }
  | PC.lenCheck id => t.nexts = 1 ∧ First st db t.perm t.hash id ∧ id ∈ set
  | PC.sendErr line e => t.sent = [] ∧ e ≠ none ∧ TaskErr st db d cfg query t.perm t.hash e ∧
      ((line = 109 ∧ t.nexts = 0) ∨ ((line = 118 ∨ line = 129) ∧ t.nexts = 1))
  | PC.done line => ((line = 105 ∨ line = 110) ∧ t.nexts = 0) ∨
      ((line = 119 ∨ line = 130 ∨ line = 136 ∨ line = 140) ∧ t.nexts = 1)

/-- The records the caller has taken from `closest` so far. -/
def Main.received : Main → List Record
  | Main.collecting _ arr => arr
  | Main.returned arr => arr
  | Main.failed _ => []

/-- What holds of the caller: one record per finished iteration. -/
def MainInv (st : Store σ ι) (db : σ) (d : Deps) (cfg : lshConfig) (query : FloatVec)
    (hashes : List (Nat × Nat)) : Main → Prop
  | Main.collecting k arr => arr.length + k = hashes.length
  | Main.returned arr => arr.length = hashes.length
  | Main.failed e => e ≠ none ∧ ∃ ph ∈ hashes, TaskErr st db d cfg query ph.1 ph.2 e

/-- The invariant of `Search`. -/
structure Inv (st : Store σ ι) (db : σ) (d : Deps) (cfg : lshConfig) (query : FloatVec)
    (s : State ι) : Prop where
  tasks : ∀ t ∈ s.tasks, TaskInv st db d cfg query s.closestSet t
  keys : s.tasks.map (fun t => (t.perm, t.hash)) = d.getHashes query
  errs : ∀ e ∈ s.errs, e ≠ none ∧ ∃ ph ∈ d.getHashes query, TaskErr st db d cfg query ph.1 ph.2 e
  main : MainInv st db d cfg query (d.getHashes query) s.main
  records : List.Subperm (s.main.received ++ s.closest) (s.tasks.flatMap sentRecords)

end SearchInv

/-! ## Invariant of `Train` over the in-memory store -/

/-- What holds of `Train` over `memStore` once `Clear` has run: the store
holds what the goroutines have written so far and nothing else. -/
structure TrainInv (d : Deps) (records : List Record) (s : TrainState MemStore) : Prop where
  recs : s.tasks.map (fun t => t.record) = records
  pending : ∀ t ∈ s.tasks, (t.vecSet = false → t.hashes = d.getHashes t.record.Vec) ∧
    ∀ ph ∈ t.hashes, ph ∈ d.getHashes t.record.Vec
  vecFrom : ∀ id v, s.db.vectors id = some v → ∃ r ∈ records, r.ID = id ∧ r.Vec = v
  vecDone : ∀ t ∈ s.tasks, t.vecSet = true → s.db.vectors t.record.ID = some t.record.Vec
  memFrom : ∀ p h id, id ∈ s.db.buckets p h →
    ∃ r ∈ records, r.ID = id ∧ (p, h) ∈ d.getHashes r.Vec
  memDone : ∀ t ∈ s.tasks, ∀ ph ∈ d.getHashes t.record.Vec, ph ∉ t.hashes →
    t.record.ID ∈ s.db.buckets ph.1 ph.2
  retDone : ∀ e, s.ret = some e → e = none ∧ ∀ t ∈ s.tasks, t.finished = true

/-! ## Statement helpers and concrete inputs -/

/-- The identifier a goroutine holds at a program point, if any. -/
def PC.ident {ι : Type} : PC ι → Option String
  | PC.loopTop id => some id
  | PC.getVec id => some id
  | PC.mark id _ => some id
  | PC.send id _ => some id
  | PC.lenCheck id => some id
  | _ => none

/-- Whether a goroutine is still before its `iter.Next()` call (line 112). -/
def PC.beforeNext {ι : Type} : PC ι → Bool
  | PC.start => true
  | PC.openIter => true
  | PC.callNext _ => true
  | _ => false

/-- Program points at which a goroutine holds no identifier and no error to
send. -/
def PC.silent {ι : Type} : PC ι → Bool
  | PC.start => true
  | PC.openIter => true
  | PC.callNext _ => true
  | PC.done _ => true
  | _ => false

/-- Whether the goroutine has returned. -/
def PC.isDone {ι : Type} : PC ι → Bool
  | PC.done _ => true
  | _ => false

/-- The line by which the goroutine has returned, if it has. -/
def PC.exitLine {ι : Type} : PC ι → Option Nat
  | PC.done line => some line
  | _ => none

/-- The identifier returned by the first `Next` of the bucket's iterator. -/
def firstId {σ ι : Type} (st : Store σ ι) (db : σ) (ph : Nat × Nat) : String :=
  (st.Next (st.GetHashIterator ph.1 ph.2 db).1).1.1

/-- A hasher with one permutation of one hyperplane `(1, 0)` with bias `0`. -/
def onePerm : List hasherInstance :=
  [{ Planes := [[1, 0]], Bias := [0] }]

/-- A hasher with two permutations, each one hyperplane `(1, 0)` with bias `0`. -/
def twoPerms : List hasherInstance :=
  [{ Planes := [[1, 0]], Bias := [0] }, { Planes := [[1, 0]], Bias := [0] }]

/-- A hasher with one permutation of one hyperplane `(1, 0)` with bias `2`. -/
def biasedPerm : List hasherInstance :=
  [{ Planes := [[1, 0]], Bias := [2] }]

/-- The store with no vectors and no bucket members. -/
def emptyDb : MemStore :=
  { vectors := fun _ => none, buckets := fun _ _ => [] }

/-- A store with the vectors `a = (1, 0)` and `b = (2, 0)`, bucket `(0, 1)`
holding `a, b` and bucket `(1, 1)` holding `b, a`: what `Train` leaves for `a`
and `b` under `twoPerms` when the goroutine of `a` reaches bucket `(0, 1)`
first and the goroutine of `b` reaches bucket `(1, 1)` first. -/
def dbTwo : MemStore :=
  { vectors := fun k => if k = "a" then some [1, 0] else if k = "b" then some [2, 0] else none
    buckets := fun p h =>
      if p = 0 ∧ h = 1 then ["a", "b"] else if p = 1 ∧ h = 1 then ["b", "a"] else [] }

/-- A store whose bucket `(0, 1)` holds `a` while no vector is stored for `a`. -/
def dbNoVector : MemStore :=
  { vectors := fun _ => none
    buckets := fun p h => if p = 0 ∧ h = 1 then ["a"] else [] }

/-- Euclidian metric, threshold 5, `MaxNN = 1`. -/
def cfgMaxOne : lshConfig :=
  { DistanceMetric := 1, DistanceThrsh := 5, MaxNN := 1 }

/-- Euclidian metric, threshold 5, `MaxNN = 5`. -/
def cfgMaxFive : lshConfig :=
  { DistanceMetric := 1, DistanceThrsh := 5, MaxNN := 5 }

/-- Cosine metric, threshold 1/2, `MaxNN = 5`. -/
def cfgCosine : lshConfig :=
  { DistanceMetric := 0, DistanceThrsh := 1 / 2, MaxNN := 5 }

/-- A metric selector that is neither `Cosine` nor `Euclidian`. -/
def cfgUnknown : lshConfig :=
  { DistanceMetric := 7, DistanceThrsh := 5, MaxNN := 5 }

/-- The record `a = (1, 0)`. -/
def recA : Record :=
  { ID := "a", Vec := [1, 0] }

/-- The record `b = (2, 0)`. -/
def recB : Record :=
  { ID := "b", Vec := [2, 0] }

/-- The record `c = (-1, 0)`. -/
def recC : Record :=
  { ID := "c", Vec := [-1, 0] }

/-- The record `A = (1, 0)` of the concrete scenario. -/
def recordA : Record :=
  { ID := "A", Vec := [1, 0] }

/-- The record `B = (-1, 0)` of the concrete scenario. -/
def recordB : Record :=
  { ID := "B", Vec := [-1, 0] }

/-- The configuration of the concrete scenario: Euclidian metric, threshold
`thr`, `MaxNN = maxNN`. -/
def cfgScenario (thr : ℚ) (maxNN : Int) : lshConfig :=
  { DistanceMetric := 1, DistanceThrsh := thr, MaxNN := maxNN }

/-- In the concrete scenario: the match has been sent; it is still on the
channel, or the caller has taken it and is about to return, or has returned. -/
def scenarioLate (s : State (List String)) : Prop :=
  (s.closest = [recordA] ∧ s.main = Main.collecting 1 []) ∨
  (s.closest = [] ∧ (s.main = Main.collecting 0 [recordA] ∨ s.main = Main.returned [recordA]))

/-- In the concrete scenario: nothing has been sent yet. -/
def scenarioEarly (s : State (List String)) : Prop :=
  s.closest = [] ∧ s.main = Main.collecting 1 []

/-- In the concrete scenario: nothing has been marked or sent yet. -/
def scenarioFresh (s : State (List String)) : Prop :=
  s.closestSet = [] ∧ scenarioEarly s

/-- The states the concrete scenario can be in: one goroutine for bucket
`(0, 1)`, which works on `A` alone. -/
def ScenarioInv (s : State (List String)) : Prop :=
  ∃ t, s.tasks = [t] ∧ t.perm = 0 ∧ t.hash = 1 ∧ s.errs = [] ∧ s.cap = 1 ∧
    match t.pc with
    | PC.start => scenarioFresh s
    | PC.openIter => scenarioFresh s
    | PC.callNext iter => (∃ rest, iter = "A" :: rest) ∧ scenarioFresh s
    | PC.loopTop id => id = "A" ∧ (scenarioFresh s ∨ ("A" ∈ s.closestSet ∧ scenarioLate s))
    | PC.getVec id => id = "A" ∧ scenarioFresh s
    | PC.mark id vec => id = "A" ∧ vec = [1, 0] ∧ scenarioFresh s
    | PC.send id vec => id = "A" ∧ vec = [1, 0] ∧ "A" ∈ s.closestSet ∧ scenarioEarly s
    | PC.lenCheck id => id = "A" ∧ "A" ∈ s.closestSet ∧ scenarioLate s
    | PC.sendErr _ _ => False
    | PC.done _ => scenarioLate s

/-- How far a goroutine of the concrete scenario is from its send. -/
def scenarioPcRank {ι : Type} : PC ι → Nat
  | PC.start => 6
  | PC.openIter => 5
  | PC.callNext _ => 4
  | PC.loopTop _ => 3
  | PC.getVec _ => 2
  | PC.mark _ _ => 1
  | _ => 0

/-- A number that some enabled action of the concrete scenario decreases until
`Search` has returned. -/
def scenarioRank (s : State (List String)) : Nat :=
  match s.main with
  | Main.returned _ => 0
  | Main.failed _ => 0
  | Main.collecting 0 _ => 1
  | Main.collecting (_ + 1) _ =>
    if s.closest.isEmpty then 3 + (s.tasks.map (fun t => scenarioPcRank t.pc)).sum else 2

/-! ## Lemmas -/

section Lemmas

variable {σ ι : Type}

theorem run_invariant (st : Store σ ι) (db : σ) (d : Deps) (cfg : lshConfig)
    (query : FloatVec) (P : State ι → Prop)
    (hstep : ∀ s a s', P s → exec st db d cfg query s a = some s' → P s') :
    ∀ (sched : List Action) (s s' : State ι), P s → run st db d cfg query sched s = some s' → P s' := by
  intro sched
  induction sched with
  | nil => intro s s' hs h; simp [run] at h; subst h; exact hs
  | cons a as ih =>
    intro s s' hs h
    simp only [run] at h
    cases hx : exec st db d cfg query s a with
    | none => simp [hx] at h
    | some s1 =>
      simp only [hx] at h
      exact ih s1 s' (hstep s a s1 hs hx) h

theorem map_set_of_eq {α β : Type} (f : α → β) :
    ∀ (l : List α) (i : Nat) (t t' : α), l[i]? = some t → f t' = f t →
      (l.set i t').map f = l.map f := by
  intro l
  induction l with
  | nil => intro i t t' h _; simp at h
  | cons x xs ih =>
    intro i t t' h hf
    cases i with
    | zero => simp at h; subst h; simp [hf]
    | succ n => simp at h; simp only [List.set_cons_succ, List.map_cons, ih n t t' h hf]

theorem flatMap_set_perm {α β : Type} (g : α → List β) :
    ∀ (l : List α) (i : Nat) (t t' : α) (r : β), l[i]? = some t → g t' = g t ++ [r] →
      List.Perm ((l.set i t').flatMap g) (l.flatMap g ++ [r]) := by
  intro l
  induction l with
  | nil => intro i t t' r h _; simp at h
  | cons x xs ih =>
    intro i t t' r h hg
    cases i with
    | zero =>
      simp at h; subst h
      simp only [List.set_cons_zero, List.flatMap_cons, hg]
      rw [List.append_assoc, List.append_assoc]
      exact List.Perm.append_left _ List.perm_append_comm
    | succ n =>
      simp at h
      simp only [List.set_cons_succ, List.flatMap_cons, List.append_assoc]
      exact List.Perm.append_left _ (ih n t t' r h hg)

theorem run_append (st : Store σ ι) (db : σ) (d : Deps) (cfg : lshConfig) (query : FloatVec) :
    ∀ (a b : List Action) (s s1 : State ι), run st db d cfg query a s = some s1 →
      run st db d cfg query (a ++ b) s = run st db d cfg query b s1 := by
  intro a
  induction a with
  | nil => intro b s s1 h; simp only [run, Option.some.injEq] at h; subst h; rfl
  | cons x xs ih =>
    intro b s s1 h
    simp only [run, List.cons_append] at h ⊢
    cases hx : exec st db d cfg query s x with
    | none => simp [hx] at h
    | some s2 =>
      simp only [hx] at h ⊢
      exact ih b s2 s1 h


theorem TaskInv.mono (st : Store σ ι) (db : σ) (d : Deps) (cfg : lshConfig) (query : FloatVec)
    {set set' : List String} (hsub : ∀ x ∈ set, x ∈ set') {t : Task ι}
    (h : TaskInv st db d cfg query set t) : TaskInv st db d cfg query set' t := by
  obtain ⟨h1, h2, h3, h4, h5⟩ := h
  refine ⟨h1, h2, h3, h4, ?_⟩
  cases hpc : t.pc <;> simp only [hpc] at h5 ⊢
  · exact h5
  · exact h5
  · exact h5
  · exact ⟨h5.1, h5.2.1, h5.2.2.imp id (hsub _)⟩
  · exact h5
  · exact h5
  · exact ⟨h5.1, h5.2.1, hsub _ h5.2.2.1, h5.2.2.2⟩
  · exact ⟨h5.1, h5.2.1, hsub _ h5.2.2⟩
  · exact h5
  · exact h5

/-- What one step of a goroutine changes. -/
theorem stepTask_spec (st : Store σ ι) (db : σ) (d : Deps) (cfg : lshConfig) (query : FloatVec)
    (s s1 : State ι) (t t' : Task ι)
    (hinv : TaskInv st db d cfg query s.closestSet t)
    (h : stepTask st db d cfg query s t = some (t', s1)) :
    t'.perm = t.perm ∧ t'.hash = t.hash ∧ s1.tasks = s.tasks ∧ s1.main = s.main ∧
    s1.cap = s.cap ∧ (∀ x ∈ s.closestSet, x ∈ s1.closestSet) ∧
    TaskInv st db d cfg query s1.closestSet t' ∧
    ((s1.errs = s.errs) ∨ ∃ e, s1.errs = s.errs ++ [e] ∧ e ≠ none ∧ TaskErr st db d cfg query t.perm t.hash e) ∧
    ((sentRecords t' = sentRecords t ∧ s1.closest = s.closest) ∨
      ∃ r, sentRecords t' = sentRecords t ++ [r] ∧ s1.closest = s.closest ++ [r]) := by
  obtain ⟨h1, h2, h3, h4, h5⟩ := hinv
  unfold stepTask at h
  cases hpc : t.pc with
  | start =>
    simp only [hpc] at h h5
    split at h <;> (simp only [Option.some.injEq, Prod.mk.injEq] at h; obtain ⟨rfl, rfl⟩ := h) <;>
      simp_all [TaskInv, sentRecords]
  | openIter =>
    simp only [hpc] at h h5
    split at h <;> (simp only [Option.some.injEq, Prod.mk.injEq] at h; obtain ⟨rfl, rfl⟩ := h) <;>
      simp_all [TaskInv, sentRecords, TaskErr]
  | callNext iter =>
    simp only [hpc] at h h5
    split at h <;> (simp only [Option.some.injEq, Prod.mk.injEq] at h; obtain ⟨rfl, rfl⟩ := h) <;>
      simp_all [TaskInv, sentRecords, First]
    exact Prod.ext rfl (by assumption)
  | loopTop id =>
    simp only [hpc] at h h5
    split at h <;> (simp only [Option.some.injEq, Prod.mk.injEq] at h; obtain ⟨rfl, rfl⟩ := h) <;>
      simp_all [TaskInv, sentRecords]
  | getVec id =>
    simp only [hpc] at h h5
    simp only [Option.some.injEq, Prod.mk.injEq] at h; obtain ⟨rfl, rfl⟩ := h
    simp only [afterFetch]
    split_ifs with he hneg hle
    · simp_all [TaskInv, sentRecords, TaskErr]
      exact Or.inr (Or.inr ⟨id, h5.2.1, rfl⟩)
    · simp only [ne_eq, not_not] at he
      have hf := h5.2.1
      simp_all [TaskInv, sentRecords, TaskErr, distanceErr]
      exact Or.inl ⟨id, hf, _, Prod.ext rfl he, hneg⟩
    · simp only [ne_eq, not_not] at he
      simp_all [TaskInv, sentRecords, Candidate]
      exact Prod.ext rfl he
    · simp_all [TaskInv, sentRecords]
  | mark id vec =>
    simp only [hpc] at h h5
    simp only [Option.some.injEq, Prod.mk.injEq] at h; obtain ⟨rfl, rfl⟩ := h
    simp_all [TaskInv, sentRecords]
    split_ifs <;> simp_all
  | send id vec =>
    simp only [hpc] at h h5
    split at h
    · simp only [Option.some.injEq, Prod.mk.injEq] at h; obtain ⟨rfl, rfl⟩ := h
      simp_all [TaskInv, sentRecords, Candidate]
    · simp at h
  | lenCheck id =>
    simp only [hpc] at h h5
    split at h <;> (simp only [Option.some.injEq, Prod.mk.injEq] at h; obtain ⟨rfl, rfl⟩ := h) <;>
      simp_all [TaskInv, sentRecords]
  | sendErr line e =>
    simp only [hpc] at h h5
    split at h
    · simp only [Option.some.injEq, Prod.mk.injEq] at h; obtain ⟨rfl, rfl⟩ := h
      have hl := h5.2.2.2
      simp_all [TaskInv, sentRecords]
      omega
    · simp at h
  | done line => simp [hpc] at h


theorem flatMap_set_of_eq {α β : Type} (g : α → List β) (l : List α) (i : Nat) (t t' : α)
    (h : l[i]? = some t) (hg : g t' = g t) : (l.set i t').flatMap g = l.flatMap g := by
  simp only [List.flatMap, map_set_of_eq g l i t t' h hg]

/-- Every action preserves the invariant of `Search`. -/
theorem exec_inv (st : Store σ ι) (db : σ) (d : Deps) (cfg : lshConfig) (query : FloatVec)
    (s : State ι) (a : Action) (s' : State ι) (hinv : Inv st db d cfg query s)
    (h : exec st db d cfg query s a = some s') : Inv st db d cfg query s' := by
  cases a with
  | task i =>
    simp only [exec] at h
    cases hm : s.main with
    | returned arr => simp [hm] at h
    | failed e => simp [hm] at h
    | collecting k arr =>
      cases ht : s.tasks[i]? with
      | none => simp [hm, ht] at h
      | some t =>
        cases hs : stepTask st db d cfg query s t with
        | none => simp [hm, ht, hs] at h
        | some p =>
          obtain ⟨t', s1⟩ := p
          simp only [hm, ht, hs, Option.some.injEq] at h
          subst h
          have htm : t ∈ s.tasks := List.getElem?_mem ht
          obtain ⟨hp, hh, htasks, hmain, _, hsub, hti, herr, hrec⟩ :=
            stepTask_spec st db d cfg query s s1 t t' (hinv.tasks t htm) hs
          have hkey : (fun x : Task ι => (x.perm, x.hash)) t' = (fun x : Task ι => (x.perm, x.hash)) t := by
            simp [hp, hh]
          constructor
          · intro x hx
            simp only [htasks] at hx
            rcases List.mem_or_eq_of_mem_set hx with hx | hx
            · exact TaskInv.mono st db d cfg query hsub (hinv.tasks x hx)
            · subst hx; exact hti
          · simp only [htasks]
            rw [map_set_of_eq _ s.tasks i t t' ht hkey]
            exact hinv.keys
          · rcases herr with he | ⟨e, he, hne, hte⟩
            · simp only [he]; exact hinv.errs
            · simp only [he]
              intro x hx
              rcases List.mem_append.1 hx with hx | hx
              · exact hinv.errs x hx
              · simp only [List.mem_singleton] at hx
                subst hx
                refine ⟨hne, (t.perm, t.hash), ?_, hte⟩
                rw [← hinv.keys]
                exact List.mem_map.2 ⟨t, htm, rfl⟩
          · simp only [hmain]; exact hinv.main
          · simp only [hmain, htasks]
            rcases hrec with ⟨hr, hc⟩ | ⟨r, hr, hc⟩
            · rw [flatMap_set_of_eq sentRecords s.tasks i t t' ht hr, hc]
              exact hinv.records
            · rw [hc, ← List.append_assoc]
              refine List.Subperm.trans ((List.subperm_append_right [r]).2 hinv.records) ?_
              exact (flatMap_set_perm sentRecords s.tasks i t t' r ht hr).symm.subperm
  | recvClosest =>
    simp only [exec] at h
    have hmi := hinv.main
    have hr := hinv.records
    split at h
    · rename_i k arr res rest hm hc
      simp only [Option.some.injEq] at h
      subst h
      simp only [hm, MainInv] at hmi
      refine ⟨hinv.tasks, hinv.keys, hinv.errs, ?_, ?_⟩
      · simp only [MainInv, List.length_append, List.length_singleton]; omega
      · simp only [hm, hc, Main.received] at hr
        simpa [Main.received] using hr
    · simp at h
  | recvErr =>
    simp only [exec] at h
    have hmi := hinv.main
    have hr := hinv.records
    split at h
    · rename_i k arr err rest hm hc
      have he := hinv.errs err (by simp [hc])
      split at h
      · simp only [Option.some.injEq] at h
        subst h
        refine ⟨hinv.tasks, hinv.keys, fun e hx => hinv.errs e (by simp [hc, hx]), he, ?_⟩
        simp only [hm, Main.received] at hr
        simp only [Main.received, List.nil_append]
        exact List.Subperm.trans (List.sublist_append_right arr s.closest).subperm hr
      · exact absurd he.1 (by assumption)
    · simp at h
  | ret =>
    simp only [exec] at h
    have hmi := hinv.main
    have hr := hinv.records
    split at h
    · rename_i arr hm
      simp only [Option.some.injEq] at h
      subst h
      simp only [hm, MainInv] at hmi
      refine ⟨hinv.tasks, hinv.keys, hinv.errs, ?_, ?_⟩
      · simpa [MainInv] using hmi
      · simpa [hm, Main.received] using hr
    · simp at h

/-- The invariant holds when `Search` starts. -/
theorem init_inv (st : Store σ ι) (db : σ) (d : Deps) (cfg : lshConfig) (query : FloatVec) :
    Inv st db d cfg query (Search.init ι d query) := by
  constructor
  · intro t ht
    simp only [Search.init, List.mem_map] at ht
    obtain ⟨ph, _, rfl⟩ := ht
    simp [TaskInv]
  · simp [Search.init, Function.comp_def]
  · simp [Search.init]
  · simp [Search.init, MainInv]
  · simp [Search.init, Main.received]

/-- The invariant holds in every state `Search` can reach. -/
theorem reach_inv (st : Store σ ι) (db : σ) (d : Deps) (cfg : lshConfig) (query : FloatVec)
    (sched : List Action) (s : State ι)
    (h : run st db d cfg query sched (Search.init ι d query) = some s) :
    Inv st db d cfg query s :=
  run_invariant st db d cfg query (Inv st db d cfg query)
    (fun s a s' hs hx => exec_inv st db d cfg query s a s' hs hx) sched _ s
    (init_inv st db d cfg query) h


/-- A result of `Search` comes from a reachable state in which the caller has
returned. -/
theorem Search_some (st : Store σ ι) (db : σ) (d : Deps) (cfg : lshConfig) (query : FloatVec)
    (sched : List Action) (records : List Record) (e : GoError)
    (h : Search st db d cfg query sched = some (records, e)) :
    ∃ s, run st db d cfg query sched (Search.init ι d query) = some s ∧
      ((s.main = Main.returned records ∧ e = none) ∨ (s.main = Main.failed e ∧ records = [])) := by
  unfold Search at h
  cases hr : run st db d cfg query sched (Search.init ι d query) with
  | none => simp [hr] at h
  | some s =>
    refine ⟨s, rfl, ?_⟩
    simp only [hr] at h
    cases hm : s.main with
    | collecting k arr => simp [hm] at h
    | returned arr =>
      simp only [hm, Option.some.injEq, Prod.mk.injEq] at h
      left; simp [h.1.symm, h.2.symm]
    | failed err =>
      simp only [hm, Option.some.injEq, Prod.mk.injEq] at h
      right; simp [h.1.symm, h.2.symm]

/-- A `nil` error in the result of `Search` means the caller left the loop at
line 153. -/
theorem Search_ok (st : Store σ ι) (db : σ) (d : Deps) (cfg : lshConfig) (query : FloatVec)
    (sched : List Action) (records : List Record)
    (h : Search st db d cfg query sched = some (records, none)) :
    ∃ s, run st db d cfg query sched (Search.init ι d query) = some s ∧
      s.main = Main.returned records := by
  obtain ⟨s, hs, hm | hm⟩ := Search_some st db d cfg query sched records none h
  · exact ⟨s, hs, hm.1⟩
  · have := (reach_inv st db d cfg query sched s hs).main
    rw [hm.1] at this
    exact absurd rfl this.1

/-- With an unknown metric selector no record qualifies. -/
theorem no_candidate_of_unknown_metric (st : Store σ ι) (db : σ) (d : Deps) (cfg : lshConfig)
    (query : FloatVec) (hc : cfg.DistanceMetric ≠ d.Cosine) (he : cfg.DistanceMetric ≠ d.Euclidian)
    (perm hash : Nat) (r : Record) : ¬ Candidate st db d cfg query perm hash r := by
  intro h
  have h0 := h.2.2.1
  simp only [calcDist, hc, he, if_false] at h0
  norm_num at h0

/-- If no goroutine has sent a match, no match has been received. -/
theorem no_records_of_no_candidate (st : Store σ ι) (db : σ) (d : Deps) (cfg : lshConfig)
    (query : FloatVec) (hno : ∀ perm hash r, ¬ Candidate st db d cfg query perm hash r)
    (s : State ι) (hinv : Inv st db d cfg query s) :
    s.main.received = [] ∧ s.closest = [] := by
  have hflat : s.tasks.flatMap sentRecords = [] := by
    rw [List.flatMap_eq_nil_iff]
    intro t ht
    have h1 := (hinv.tasks t ht).1
    unfold sentRecords
    rw [List.filterMap_eq_nil_iff]
    intro ev hev
    cases ev with
    | found r => exact absurd (h1 r hev) (hno _ _ r)
    | error e => rfl
  have := hinv.records
  rw [hflat] at this
  have hnil := List.eq_nil_of_length_eq_zero (Nat.le_zero.1 this.length_le)
  exact List.append_eq_nil.1 hnil

/-- If every probed bucket is empty (its iterator opens and its first `Next`
reports an error), no goroutine ever sends an event and the caller stays in
its first iteration. -/
theorem empty_buckets_silent (st : Store σ ι) (db : σ) (d : Deps) (cfg : lshConfig)
    (query : FloatVec) (hn : d.getHashes query ≠ [])
    (hempty : ∀ ph ∈ d.getHashes query, (st.GetHashIterator ph.1 ph.2 db).2 = none ∧
      (st.Next (st.GetHashIterator ph.1 ph.2 db).1).1.2 ≠ none)
    (sched : List Action) (s : State ι)
    (h : run st db d cfg query sched (Search.init ι d query) = some s) :
    s.closest = [] ∧ s.errs = [] ∧ s.main = Main.collecting (d.getHashes query).length [] := by
  have key := run_invariant st db d cfg query
    (fun s => Inv st db d cfg query s ∧ s.closest = [] ∧ s.errs = [] ∧
      s.main = Main.collecting (d.getHashes query).length [] ∧
      ∀ t ∈ s.tasks, t.pc.silent = true) ?_ sched _ s
    ⟨init_inv st db d cfg query, by simp [Search.init], by simp [Search.init],
      by simp [Search.init], by
        intro t ht
        simp only [Search.init, List.mem_map] at ht
        obtain ⟨ph, _, rfl⟩ := ht
        rfl⟩ h
  · exact ⟨key.2.1, key.2.2.1, key.2.2.2.1⟩
  · intro s a s' ⟨hinv, hc, he, hm, hq⟩ hx
    have hinv' := exec_inv st db d cfg query s a s' hinv hx
    refine ⟨hinv', ?_⟩
    cases a with
    | task i =>
      simp only [exec, hm] at hx
      cases ht : s.tasks[i]? with
      | none => simp [ht] at hx
      | some t =>
        have htm : t ∈ s.tasks := List.getElem?_mem ht
        have hti := (hinv.tasks t htm).2.2.2.2
        have hkey : (t.perm, t.hash) ∈ d.getHashes query := by
          rw [← hinv.keys]; exact List.mem_map.2 ⟨t, htm, rfl⟩
        have hemp := hempty _ hkey
        have hq1 := hq t htm
        cases hs : stepTask st db d cfg query s t with
        | none => simp [ht, hs] at hx
        | some p =>
          obtain ⟨t', s1⟩ := p
          simp only [ht, hs, Option.some.injEq] at hx
          subst hx
          have hgoal : s1 = s ∧ t'.pc.silent = true := by
            unfold stepTask at hs
            cases hpc : t.pc with
            | start =>
              simp only [hpc] at hs
              split at hs <;>
                (simp only [Option.some.injEq, Prod.mk.injEq] at hs; obtain ⟨rfl, rfl⟩ := hs) <;>
                exact ⟨rfl, rfl⟩
            | openIter =>
              simp only [hpc] at hs
              split at hs <;>
                (simp only [Option.some.injEq, Prod.mk.injEq] at hs; obtain ⟨rfl, rfl⟩ := hs)
              · exact absurd hemp.1 (by assumption)
              · exact ⟨rfl, rfl⟩
            | callNext iter =>
              simp only [hpc] at hs hti
              obtain ⟨_, _, _, rfl⟩ := hti
              split at hs <;>
                (simp only [Option.some.injEq, Prod.mk.injEq] at hs; obtain ⟨rfl, rfl⟩ := hs)
              · exact absurd (by assumption) hemp.2
              · exact ⟨rfl, rfl⟩
            | loopTop id => simp [hpc, PC.silent] at hq1
            | getVec id => simp [hpc, PC.silent] at hq1
            | mark id vec => simp [hpc, PC.silent] at hq1
            | send id vec => simp [hpc, PC.silent] at hq1
            | lenCheck id => simp [hpc, PC.silent] at hq1
            | sendErr line e => simp [hpc, PC.silent] at hq1
            | done line => simp [hpc] at hs
          obtain ⟨rfl, hsil⟩ := hgoal
          refine ⟨hc, he, hm, ?_⟩
          intro x hx
          rcases List.mem_or_eq_of_mem_set hx with hx | hx
          · exact hq x hx
          · subst hx; exact hsil
    | recvClosest => simp [exec, hm, hc] at hx
    | recvErr => simp [exec, hm, he] at hx
    | ret =>
      simp only [exec, hm] at hx
      cases hl : (d.getHashes query).length with
      | zero => exact absurd (List.eq_nil_of_length_eq_zero hl) hn
      | succ n => simp [hl] at hx


theorem subperm_map {α β : Type} (f : α → β) {l₁ l₂ : List α} (h : List.Subperm l₁ l₂) :
    List.Subperm (l₁.map f) (l₂.map f) := by
  obtain ⟨l, hp, hs⟩ := h
  exact ⟨l.map f, hp.map f, hs.map f⟩

theorem flatMap_map_sublist {α β γ : Type} (g : α → List β) (f : β → γ) (k : α → γ) :
    ∀ (l : List α), (∀ t ∈ l, List.Sublist ((g t).map f) [k t]) →
      List.Sublist ((l.flatMap g).map f) (l.map k) := by
  intro l
  induction l with
  | nil => intro _; simp
  | cons x xs ih =>
    intro h
    simp only [List.flatMap_cons, List.map_append, List.map_cons]
    have h1 := h x (List.mem_cons_self _ _)
    have h2 := ih (fun t ht => h t (List.mem_cons_of_mem _ ht))
    exact List.Sublist.append h1 h2

/-- The matches a goroutine has sent carry the first identifier of its bucket,
and there is at most one of them. -/
theorem sentRecords_sublist (st : Store σ ι) (db : σ) (d : Deps) (cfg : lshConfig)
    (query : FloatVec) (set : List String) (t : Task ι)
    (h : TaskInv st db d cfg query set t) :
    List.Sublist ((sentRecords t).map (fun r => r.ID)) [firstId st db (t.perm, t.hash)] := by
  obtain ⟨h1, _, _, h4, _⟩ := h
  unfold sentRecords
  cases hs : t.sent with
  | nil => simp
  | cons ev rest =>
    have hrest : rest = [] := by
      rw [hs] at h4
      simp only [List.length_cons] at h4
      exact List.eq_nil_of_length_eq_zero (by omega)
    subst hrest
    cases ev with
    | error e => simp
    | found r =>
      have hc := h1 r (by simp [hs])
      have hid : r.ID = firstId st db (t.perm, t.hash) := by
        have := hc.1.2
        simp only [firstId, this]
      simp [hid]


/-! ### Train -/

theorem trainRun_invariant (st : Store σ ι) (P : TrainState σ → Prop)
    (hstep : ∀ s a s', P s → trainExec st s a = some s' → P s') :
    ∀ (sched : List TrainAction) (s s' : TrainState σ), P s →
      trainRun st sched s = some s' → P s' := by
  intro sched
  induction sched with
  | nil => intro s s' hs h; simp [trainRun] at h; subst h; exact hs
  | cons a as ih =>
    intro s s' hs h
    simp only [trainRun] at h
    cases hx : trainExec st s a with
    | none => simp [hx] at h
    | some s1 =>
      simp only [hx] at h
      exact ih s1 s' (hstep s a s1 hs hx) h

theorem mem_of_mem_eraseIdx {α : Type} {l : List α} {j : Nat} {x : α}
    (h : x ∈ l.eraseIdx j) : x ∈ l :=
  (List.eraseIdx_sublist l j).subset h

theorem eq_of_not_mem_eraseIdx {α : Type} :
    ∀ (l : List α) (j : Nat) (x y : α), l[j]? = some y → x ∈ l → x ∉ l.eraseIdx j → x = y := by
  intro l
  induction l with
  | nil => intro j x y h; simp at h
  | cons a as ih =>
    intro j x y h hx hn
    cases j with
    | zero =>
      simp only [List.getElem?_cons_zero, Option.some.injEq] at h
      simp only [List.eraseIdx_cons_zero] at hn
      rcases List.mem_cons.1 hx with hx | hx
      · rw [hx, h]
      · exact absurd hx hn
    | succ n =>
      simp only [List.getElem?_cons_succ] at h
      simp only [List.eraseIdx_cons_succ, List.mem_cons, not_or] at hn
      rcases List.mem_cons.1 hx with hx | hx
      · exact absurd hx hn.1
      · exact ih n x y h hx hn.2


theorem memStore_SetHash_mem (p h : Nat) (id : String) (s : MemStore) (p' h' : Nat)
    (id' : String) :
    id' ∈ ((memStore.SetHash p h id s).1).buckets p' h' ↔
      id' ∈ s.buckets p' h' ∨ (p' = p ∧ h' = h ∧ id' = id) := by
  simp only [memStore]
  by_cases hk : p' = p ∧ h' = h
  · obtain ⟨rfl, rfl⟩ := hk
    by_cases hm : id ∈ s.buckets p' h'
    · simp only [and_self, if_true, hm, true_and]
      constructor
      · intro hx; exact Or.inl hx
      · rintro (hx | rfl)
        · exact hx
        · exact hm
    · simp [hm]
  · simp only [hk, if_false]
    constructor
    · intro hx; exact Or.inl hx
    · rintro (hx | ⟨h1, h2, _⟩)
      · exact hx
      · exact absurd ⟨h1, h2⟩ hk

theorem memStore_SetHash_vectors (p h : Nat) (id : String) (s : MemStore) :
    ((memStore.SetHash p h id s).1).vectors = s.vectors := rfl

theorem memStore_SetVector_vectors (id : String) (v : FloatVec) (s : MemStore) (k : String) :
    ((memStore.SetVector id v s).1).vectors k = if k = id then some v else s.vectors k := rfl

/-- The invariant of `Train` holds after `Clear`. -/
theorem train_init_inv (prior : MemStore) (d : Deps) (records : List Record) :
    TrainInv d records (Train.init memStore prior d records) := by
  have hinit : Train.init memStore prior d records =
      { db := { vectors := fun _ => none, buckets := fun _ _ => [] }
        tasks := records.map
          (fun r => { record := r, vecSet := false, hashes := d.getHashes r.Vec })
        calls := [Call.clear]
        ret := none } := by
    simp [Train.init, memStore]
  rw [hinit]
  constructor
  · simp [Function.comp_def]
  · intro t ht
    simp only [List.mem_map] at ht
    obtain ⟨r, _, rfl⟩ := ht
    simp
  · intro id v h; simp at h
  · intro t ht
    simp only [List.mem_map] at ht
    obtain ⟨r, _, rfl⟩ := ht
    simp
  · intro p h id hm; simp at hm
  · intro t ht
    simp only [List.mem_map] at ht
    obtain ⟨r, _, rfl⟩ := ht
    intro ph h1 h2
    exact absurd h1 h2
  · intro e h; simp at h

/-- Every action of `Train` over the in-memory store preserves the invariant,
when the submitted IDs are pairwise distinct. -/
theorem trainExec_inv (d : Deps) (records : List Record)
    (hnd : (records.map (fun r => r.ID)).Nodup)
    (s : TrainState MemStore) (a : TrainAction) (s' : TrainState MemStore)
    (hinv : TrainInv d records s) (h : trainExec memStore s a = some s') :
    TrainInv d records s' := by
  have hinj : ∀ x ∈ s.tasks, ∀ y ∈ s.tasks, x.record.ID = y.record.ID → x.record = y.record := by
    intro x hx y hy hid
    have hxr : x.record ∈ records := by rw [← hinv.recs]; exact List.mem_map.2 ⟨x, hx, rfl⟩
    have hyr : y.record ∈ records := by rw [← hinv.recs]; exact List.mem_map.2 ⟨y, hy, rfl⟩
    exact List.inj_on_of_nodup_map hnd hxr hyr hid
  cases a with
  | setVector i =>
    simp only [trainExec] at h
    cases hr : s.ret with
    | some e => simp [hr] at h
    | none =>
      cases ht : s.tasks[i]? with
      | none => simp [hr, ht] at h
      | some t =>
        have htm : t ∈ s.tasks := List.getElem?_mem ht
        simp only [hr, ht] at h
        split at h
        · simp at h
        · rename_i hvs
          simp only [Option.some.injEq] at h
          subst h
          constructor
          · show List.map (fun t : TrainTask => t.record) (s.tasks.set i _) = records
            rw [map_set_of_eq (fun t : TrainTask => t.record) s.tasks i t _ ht (by rfl)]
            exact hinv.recs
          · intro x hx
            rcases List.mem_or_eq_of_mem_set hx with hx | hx
            · exact hinv.pending x hx
            · subst hx
              exact ⟨by simp, (hinv.pending t htm).2⟩
          · intro id v hv
            simp only [memStore_SetVector_vectors] at hv
            split at hv
            · rename_i hid
              simp only [Option.some.injEq] at hv
              refine ⟨t.record, ?_, hid.symm, hv⟩
              rw [← hinv.recs]; exact List.mem_map.2 ⟨t, htm, rfl⟩
            · exact hinv.vecFrom id v hv
          · intro x hx hxs
            simp only [memStore_SetVector_vectors]
            rcases List.mem_or_eq_of_mem_set hx with hx | hx
            · split
              · rename_i hid
                rw [hinj x hx t htm hid]
              · exact hinv.vecDone x hx hxs
            · subst hx; simp
          · intro p h id hm
            exact hinv.memFrom p h id hm
          · intro x hx ph hph hn
            rcases List.mem_or_eq_of_mem_set hx with hx | hx
            · exact hinv.memDone x hx ph hph hn
            · subst hx
              exact hinv.memDone t htm ph hph hn
          · intro e he
            simp [hr] at he
  | setHash i j =>
    simp only [trainExec] at h
    cases hr : s.ret with
    | some e => simp [hr] at h
    | none =>
      cases ht : s.tasks[i]? with
      | none => simp [hr, ht] at h
      | some t =>
        have htm : t ∈ s.tasks := List.getElem?_mem ht
        simp only [hr, ht] at h
        split at h
        · rename_i ph hvs hj
          simp only [Option.some.injEq] at h
          subst h
          have hphm : ph ∈ t.hashes := List.getElem?_mem hj
          constructor
          · show List.map (fun t : TrainTask => t.record) (s.tasks.set i _) = records
            rw [map_set_of_eq (fun t : TrainTask => t.record) s.tasks i t _ ht (by rfl)]
            exact hinv.recs
          · intro x hx
            rcases List.mem_or_eq_of_mem_set hx with hx | hx
            · exact hinv.pending x hx
            · subst hx
              refine ⟨by simp [hvs], ?_⟩
              intro q hq
              exact (hinv.pending t htm).2 q (mem_of_mem_eraseIdx hq)
          · intro id v hv
            exact hinv.vecFrom id v hv
          · intro x hx hxs
            simp only [memStore_SetHash_vectors]
            rcases List.mem_or_eq_of_mem_set hx with hx | hx
            · exact hinv.vecDone x hx hxs
            · subst hx
              exact hinv.vecDone t htm hvs
          · intro p h id hm
            rcases (memStore_SetHash_mem _ _ _ _ _ _ _).1 hm with hm | ⟨rfl, rfl, rfl⟩
            · exact hinv.memFrom p h id hm
            · refine ⟨t.record, ?_, rfl, (hinv.pending t htm).2 ph hphm⟩
              rw [← hinv.recs]; exact List.mem_map.2 ⟨t, htm, rfl⟩
          · intro x hx q hq hn
            rw [memStore_SetHash_mem]
            rcases List.mem_or_eq_of_mem_set hx with hx | hx
            · exact Or.inl (hinv.memDone x hx q hq hn)
            · subst hx
              by_cases hqm : q ∈ t.hashes
              · have := eq_of_not_mem_eraseIdx t.hashes j q ph hj hqm hn
                subst this
                exact Or.inr ⟨rfl, rfl, rfl⟩
              · exact Or.inl (hinv.memDone t htm q hq hqm)
          · intro e he
            simp [hr] at he
        · simp at h
  | wait =>
    simp only [trainExec] at h
    cases hr : s.ret with
    | some e => simp [hr] at h
    | none =>
      simp only [hr] at h
      split at h
      · rename_i hall
        simp only [Option.some.injEq] at h
        subst h
        refine ⟨hinv.recs, hinv.pending, hinv.vecFrom, hinv.vecDone, hinv.memFrom,
          hinv.memDone, ?_⟩
        intro e he
        simp only [Option.some.injEq] at he
        exact ⟨he.symm, fun t ht => List.all_eq_true.1 hall t ht⟩
      · simp at h

/-- The invariant holds in every state `Train` reaches over the in-memory
store. -/
theorem train_reach_inv (prior : MemStore) (d : Deps) (records : List Record)
    (hnd : (records.map (fun r => r.ID)).Nodup) (sched : List TrainAction)
    (s : TrainState MemStore)
    (h : trainRun memStore sched (Train.init memStore prior d records) = some s) :
    TrainInv d records s :=
  trainRun_invariant memStore (TrainInv d records)
    (fun s a s' hs hx => trainExec_inv d records hnd s a s' hs hx) sched _ s
    (train_init_inv prior d records) h


theorem sum_map_set_succ {α : Type} (w : α → Nat) :
    ∀ (l : List α) (i : Nat) (t t' : α), l[i]? = some t → w t = w t' + 1 →
      ((l.set i t').map w).sum + 1 = (l.map w).sum := by
  intro l
  induction l with
  | nil => intro i t t' h _; simp at h
  | cons x xs ih =>
    intro i t t' h hw
    cases i with
    | zero =>
      simp only [List.getElem?_cons_zero, Option.some.injEq] at h
      subst h
      simp only [List.set_cons_zero, List.map_cons, List.sum_cons, hw]
      omega
    | succ n =>
      simp only [List.getElem?_cons_succ] at h
      have := ih n t t' h hw
      simp only [List.set_cons_succ, List.map_cons, List.sum_cons]
      omega

/-- Store calls still to be made, plus one for the return of `Train`. -/
theorem trainExec_fuel (st : Store σ ι) (s : TrainState σ) (a : TrainAction)
    (s' : TrainState σ) (h : trainExec st s a = some s') :
    (trainWork s'.tasks + (if s'.ret = none then 1 else 0)) + 1
      = trainWork s.tasks + (if s.ret = none then 1 else 0) ∧
    s.ret = none ∧ (∀ e, s'.ret = some e → e = none) := by
  cases a with
  | setVector i =>
    simp only [trainExec] at h
    cases hr : s.ret with
    | some e => simp [hr] at h
    | none =>
      cases ht : s.tasks[i]? with
      | none => simp [hr, ht] at h
      | some t =>
        simp only [hr, ht] at h
        split at h
        · simp at h
        · rename_i hvs
          simp only [Option.some.injEq] at h
          subst h
          have := sum_map_set_succ (fun t : TrainTask => (if t.vecSet then 0 else 1) + t.hashes.length)
            s.tasks i t { t with vecSet := true } ht (by simp [hvs]; omega)
          simp only [trainWork, hr, if_true]
          refine ⟨by omega, trivial, by simp⟩
  | setHash i j =>
    simp only [trainExec] at h
    cases hr : s.ret with
    | some e => simp [hr] at h
    | none =>
      cases ht : s.tasks[i]? with
      | none => simp [hr, ht] at h
      | some t =>
        simp only [hr, ht] at h
        split at h
        · rename_i ph hvs hj
          simp only [Option.some.injEq] at h
          subst h
          have hlt : j < t.hashes.length := by
            obtain ⟨hlt, _⟩ := List.getElem?_eq_some_iff.1 hj
            exact hlt
          have := sum_map_set_succ (fun t : TrainTask => (if t.vecSet then 0 else 1) + t.hashes.length)
            s.tasks i t { t with hashes := t.hashes.eraseIdx j } ht
            (by simp only [List.length_eraseIdx_of_lt hlt]; omega)
          simp only [trainWork, hr, if_true]
          refine ⟨by omega, trivial, by simp⟩
        · simp at h
  | wait =>
    simp only [trainExec] at h
    cases hr : s.ret with
    | some e => simp [hr] at h
    | none =>
      simp only [hr] at h
      split at h
      · simp only [Option.some.injEq] at h
        subst h
        simp
      · simp at h

/-- While `Train` has not returned, some action is enabled. -/
theorem trainExec_progress (st : Store σ ι) (s : TrainState σ) (hr : s.ret = none) :
    ∃ a s', trainExec st s a = some s' := by
  by_cases hall : s.tasks.all TrainTask.finished = true
  · exact ⟨TrainAction.wait, { s with ret := some none },
      by simp only [trainExec, hr, hall, if_true]⟩
  · rw [List.all_eq_true] at hall
    push_neg at hall
    obtain ⟨t, htm, hnf⟩ := hall
    obtain ⟨i, hi⟩ := List.mem_iff_getElem?.1 htm
    cases hvs : t.vecSet with
    | false =>
      exact ⟨TrainAction.setVector i,
        { s with
          db := (st.SetVector t.record.ID t.record.Vec s.db).1
          tasks := s.tasks.set i { t with vecSet := true }
          calls := s.calls ++ [Call.setVector t.record.ID t.record.Vec] },
        by simp [trainExec, hr, hi, hvs]⟩
    | true =>
      cases hh : t.hashes with
      | nil => simp [TrainTask.finished, hvs, hh] at hnf
      | cons ph rest =>
        refine ⟨TrainAction.setHash i 0,
          { s with
            db := (st.SetHash ph.1 ph.2 t.record.ID s.db).1
            tasks := s.tasks.set i { t with hashes := t.hashes.eraseIdx 0 }
            calls := s.calls ++ [Call.setHash ph.1 ph.2 t.record.ID] }, ?_⟩
        simp [trainExec, hr, hi, hvs, hh]

/-- Along a schedule of `Train` the fuel goes down by one per action, and the
call returns no error after the start. -/
theorem trainRun_fuel (st : Store σ ι) :
    ∀ (sched : List TrainAction) (s s' : TrainState σ), trainRun st sched s = some s' →
      sched.length + (trainWork s'.tasks + (if s'.ret = none then 1 else 0))
        = trainWork s.tasks + (if s.ret = none then 1 else 0) ∧
      (sched ≠ [] → s.ret = none ∧ ∀ e, s'.ret = some e → e = none) := by
  intro sched
  induction sched with
  | nil =>
    intro s s' h
    simp only [trainRun, Option.some.injEq] at h
    subst h
    simp
  | cons a as ih =>
    intro s s' h
    simp only [trainRun] at h
    cases hx : trainExec st s a with
    | none => simp [hx] at h
    | some s1 =>
      simp only [hx] at h
      obtain ⟨h1, h2, h3⟩ := trainExec_fuel st s a s1 hx
      obtain ⟨h4, h5⟩ := ih s1 s' h
      refine ⟨by simp only [List.length_cons]; omega, fun _ => ⟨h2, ?_⟩⟩
      cases as with
      | nil =>
        simp only [trainRun, Option.some.injEq] at h
        subst h
        exact h3
      | cons b bs => exact (h5 (by simp)).2

/-- A match returned by `Search` qualifies for one of the probed buckets. -/
theorem Search_result_candidate (st : Store σ ι) (db : σ) (d : Deps) (cfg : lshConfig)
    (query : FloatVec) (sched : List Action) (records : List Record)
    (h : Search st db d cfg query sched = some (records, none)) :
    records.length = (d.getHashes query).length ∧
    ∀ r ∈ records, ∃ ph ∈ d.getHashes query, Candidate st db d cfg query ph.1 ph.2 r := by
  obtain ⟨s, hs, hm⟩ := Search_ok st db d cfg query sched records h
  have hinv := reach_inv st db d cfg query sched s hs
  have hmi := hinv.main
  have hrec := hinv.records
  rw [hm] at hmi hrec
  refine ⟨hmi, ?_⟩
  intro r hr
  have hr2 : r ∈ s.tasks.flatMap sentRecords :=
    hrec.subset (List.mem_append_left _ hr)
  obtain ⟨t, ht, hrt⟩ := List.mem_flatMap.1 hr2
  refine ⟨(t.perm, t.hash), ?_, ?_⟩
  · rw [← hinv.keys]; exact List.mem_map.2 ⟨t, ht, rfl⟩
  · apply (hinv.tasks t ht).1 r
    unfold sentRecords at hrt
    obtain ⟨ev, hev, hsome⟩ := List.mem_filterMap.1 hrt
    cases ev with
    | found r2 =>
      simp only [Option.some.injEq] at hsome
      subst hsome
      exact hev
    | error e => simp at hsome

/-- What `Train` leaves in the in-memory store when it has returned. -/
theorem train_final (prior : MemStore) (d : Deps) (records : List Record)
    (hnd : (records.map (fun r => r.ID)).Nodup) (sched : List TrainAction)
    (s : TrainState MemStore)
    (h : trainRun memStore sched (Train.init memStore prior d records) = some s)
    (hret : s.ret = some none) :
    (∀ r ∈ records, s.db.vectors r.ID = some r.Vec) ∧
    (∀ r ∈ records, ∀ ph ∈ d.getHashes r.Vec, r.ID ∈ s.db.buckets ph.1 ph.2) ∧
    (∀ id v, s.db.vectors id = some v → { ID := id, Vec := v } ∈ records) ∧
    (∀ p h id, id ∈ s.db.buckets p h →
      ∃ r ∈ records, r.ID = id ∧ (p, h) ∈ d.getHashes r.Vec) := by
  have hinv := train_reach_inv prior d records hnd sched s h
  have hfin := (hinv.retDone none hret).2
  have htask : ∀ r ∈ records, ∃ t ∈ s.tasks, t.record = r ∧ t.vecSet = true ∧ t.hashes = [] := by
    intro r hr
    rw [← hinv.recs] at hr
    obtain ⟨t, ht, rfl⟩ := List.mem_map.1 hr
    have hf := hfin t ht
    simp only [TrainTask.finished, Bool.and_eq_true, List.isEmpty_iff] at hf
    exact ⟨t, ht, rfl, hf.1, hf.2⟩
  refine ⟨?_, ?_, ?_, hinv.memFrom⟩
  · intro r hr
    obtain ⟨t, ht, rfl, hv, _⟩ := htask r hr
    exact hinv.vecDone t ht hv
  · intro r hr ph hph
    obtain ⟨t, ht, rfl, _, hh⟩ := htask r hr
    exact hinv.memDone t ht ph hph (by simp [hh])
  · intro id v hv
    obtain ⟨r, hr, rfl, rfl⟩ := hinv.vecFrom id v hv
    exact hr

end Lemmas
/-! ## Claims about `Search` -/

section SearchClaims
variable {σ ι : Type}

theorem hashes_twoPerms : (specDeps twoPerms).getHashes [1, 0] = [(0, 1), (1, 1)] := by
  simp [specDeps, getHashes, twoPerms, hasherInstance.getHash, dot, List.enum, List.enumFrom]

theorem hashes_onePerm : (specDeps onePerm).getHashes [1, 0] = [(0, 1)] := by
  simp [specDeps, getHashes, onePerm, hasherInstance.getHash, dot, List.enum, List.enumFrom]

theorem hashes_biasedPerm : (specDeps biasedPerm).getHashes [1, 0] = [(0, 1)] := by
  simp [specDeps, getHashes, biasedPerm, hasherInstance.getHash, dot, List.enum, List.enumFrom]
  norm_num

theorem hashes_twoPerms_b : (specDeps twoPerms).getHashes [2, 0] = [(0, 1), (1, 1)] := by
  simp [specDeps, getHashes, twoPerms, hasherInstance.getHash, dot, List.enum, List.enumFrom]

theorem hashes_biasedPerm_c : (specDeps biasedPerm).getHashes [-1, 0] = [(0, 1)] := by
  simp [specDeps, getHashes, biasedPerm, hasherInstance.getHash, dot, List.enum, List.enumFrom]

theorem fetch_a_maxOne (inst : List hasherInstance) :
    afterFetch (ι := List String) (specDeps inst) cfgMaxOne [1, 0] "a" [1, 0] none
      = PC.mark "a" [1, 0] := by
  norm_num [afterFetch, calcDist, specDeps, L2, cfgMaxOne]

theorem fetch_b_maxOne (inst : List hasherInstance) :
    afterFetch (ι := List String) (specDeps inst) cfgMaxOne [1, 0] "b" [2, 0] none
      = PC.mark "b" [2, 0] := by
  norm_num [afterFetch, calcDist, specDeps, L2, cfgMaxOne]

theorem fetch_a_maxFive (inst : List hasherInstance) :
    afterFetch (ι := List String) (specDeps inst) cfgMaxFive [1, 0] "a" [1, 0] none
      = PC.mark "a" [1, 0] := by
  norm_num [afterFetch, calcDist, specDeps, L2, cfgMaxFive]

theorem cfgMaxOne_MaxNN : cfgMaxOne.MaxNN = 1 := rfl

theorem cfgMaxFive_MaxNN : cfgMaxFive.MaxNN = 5 := rfl

theorem cfgCosine_MaxNN : cfgCosine.MaxNN = 5 := rfl

theorem cfgUnknown_MaxNN : cfgUnknown.MaxNN = 5 := rfl

theorem cosine_opposite : CosineSim [-1, 0] [1, 0] = -1 := by
  norm_num [CosineSim, dot]

theorem fetch_c_cosine (inst : List hasherInstance) :
    afterFetch (ι := List String) (specDeps inst) cfgCosine [1, 0] "c" [-1, 0] none
      = PC.sendErr 129 distanceErr := by
  norm_num [afterFetch, calcDist, specDeps, cosine_opposite, cfgCosine]

theorem fetch_unknown (inst : List hasherInstance) (id : String) (vec : FloatVec) :
    afterFetch (ι := List String) (specDeps inst) cfgUnknown [1, 0] id vec none
      = PC.sendErr 129 distanceErr := by
  simp [afterFetch, calcDist, specDeps, cfgUnknown]

/-- C1 (code at the failing input): two permutations, `MaxNN = 1`.  `Train` on
`a` and `b` can leave `a` first in bucket `(0, 1)` and `b` first in bucket
`(1, 1)`; then the schedule in which both goroutines of `Search` pass the check
of line 104 before either sends makes `Search` return two records, one more
than `MaxNN`. -/
theorem Search_exceeds_MaxNN :
    ∃ ts, trainRun memStore
      [TrainAction.setVector 0, TrainAction.setVector 1, TrainAction.setHash 0 0,
       TrainAction.setHash 1 1, TrainAction.setHash 0 0, TrainAction.setHash 1 0,
       TrainAction.wait]
      (Train.init memStore emptyDb (specDeps twoPerms) [recA, recB]) = some ts ∧
    ts.ret = some none ∧
    Search memStore ts.db (specDeps twoPerms) cfgMaxOne [1, 0]
      [Action.task 0, Action.task 1, Action.task 0, Action.task 1, Action.task 0, Action.task 1,
       Action.task 0, Action.task 1, Action.task 0, Action.task 1, Action.task 0, Action.task 1,
       Action.task 0, Action.task 1, Action.recvClosest, Action.recvClosest, Action.ret]
      = some ([recA, recB], none) ∧
    (([recA, recB].length : Int) > cfgMaxOne.MaxNN) := by
  have hex : ∃ ts, trainRun memStore
      [TrainAction.setVector 0, TrainAction.setVector 1, TrainAction.setHash 0 0,
       TrainAction.setHash 1 1, TrainAction.setHash 0 0, TrainAction.setHash 1 0,
       TrainAction.wait]
      (Train.init memStore emptyDb (specDeps twoPerms) [recA, recB]) = some ts ∧
      ts.ret = some none ∧ ts.db.buckets 0 1 = ["a", "b"] ∧ ts.db.buckets 1 1 = ["b", "a"] ∧
      ts.db.vectors "a" = some [1, 0] ∧ ts.db.vectors "b" = some [2, 0] := by
    simp [trainRun, trainExec, Train.init, memStore, recA, recB, hashes_twoPerms,
      hashes_twoPerms_b, TrainTask.finished]
  obtain ⟨ts, hs, hret, hb0, hb1, hva, hvb⟩ := hex
  refine ⟨ts, hs, hret, ?_, by decide⟩
  simp [Search, run, exec, stepTask, Search.init, hashes_twoPerms, memStore, hb0, hb1, hva, hvb,
    fetch_a_maxOne, fetch_b_maxOne, cfgMaxOne_MaxNN, recA, recB]

/-- C2 (code at the failing input): two permutations, `MaxNN = 5`.  After
`Train` on the single record `a`, `a` sits in the buckets probed by both
permutations; when both goroutines run `closestSet.Get` (line 113) before
either runs `closestSet.Set` (line 133), both emit `a` and `Search` returns it
twice. -/
theorem Search_returns_duplicate :
    ∃ ts, trainRun memStore
      [TrainAction.setVector 0, TrainAction.setHash 0 0, TrainAction.setHash 0 0,
       TrainAction.wait]
      (Train.init memStore emptyDb (specDeps twoPerms) [recA]) = some ts ∧
    ts.ret = some none ∧
    Search memStore ts.db (specDeps twoPerms) cfgMaxFive [1, 0]
      [Action.task 0, Action.task 0, Action.task 0, Action.task 0,
       Action.task 1, Action.task 1, Action.task 1, Action.task 1,
       Action.task 0, Action.task 0, Action.task 0,
       Action.task 1, Action.task 1, Action.task 1,
       Action.recvClosest, Action.recvClosest, Action.ret]
      = some ([recA, recA], none) := by
  have hex : ∃ ts, trainRun memStore
      [TrainAction.setVector 0, TrainAction.setHash 0 0, TrainAction.setHash 0 0,
       TrainAction.wait]
      (Train.init memStore emptyDb (specDeps twoPerms) [recA]) = some ts ∧
      ts.ret = some none ∧ ts.db.buckets 0 1 = ["a"] ∧ ts.db.buckets 1 1 = ["a"] ∧
      ts.db.vectors "a" = some [1, 0] := by
    simp [trainRun, trainExec, Train.init, memStore, recA, hashes_twoPerms, TrainTask.finished]
  obtain ⟨ts, hs, hret, hb0, hb1, hva⟩ := hex
  refine ⟨ts, hs, hret, ?_⟩
  simp [Search, run, exec, stepTask, Search.init, hashes_twoPerms, memStore, hb0, hb1, hva,
    fetch_a_maxFive, cfgMaxFive_MaxNN, recA]

/-- C5 (code at the failing input): with one permutation whose bucket is empty
the goroutine returns without sending anything, so under every schedule the
caller is still waiting in its collection loop: `Search` never returns. -/
theorem Search_empty_bucket_never_returns (sched : List Action) :
    Search memStore emptyDb (specDeps onePerm) cfgMaxFive [1, 0] sched = none := by
  unfold Search
  cases hr : run memStore emptyDb (specDeps onePerm) cfgMaxFive [1, 0] sched
      (Search.init (List String) (specDeps onePerm) [1, 0]) with
  | none => rfl
  | some s =>
    have h := empty_buckets_silent memStore emptyDb (specDeps onePerm) cfgMaxFive [1, 0]
      (by simp [hashes_onePerm])
      (by simp [hashes_onePerm, memStore, emptyDb]) sched s hr
    simp [h.2.2]

/-- C6 (code at the failing input): Cosine metric, threshold `1/2`, one
hyperplane `(1, 0)` with bias 2.  After `Train` on `c = (-1, 0)`, `c` is in the
bucket of the query `(1, 0)` and its similarity to the query is `-1`, below the
threshold; yet line 128 takes the negative value for the `-1` of an unknown
metric and `Search` fails with the distance error. -/
theorem Search_negative_cosine_is_error :
    CosineSim recC.Vec [1, 0] ≤ cfgCosine.DistanceThrsh ∧
    ∃ ts, trainRun memStore
      [TrainAction.setVector 0, TrainAction.setHash 0 0, TrainAction.wait]
      (Train.init memStore emptyDb (specDeps biasedPerm) [recC]) = some ts ∧
    ts.ret = some none ∧
    Search memStore ts.db (specDeps biasedPerm) cfgCosine [1, 0]
      [Action.task 0, Action.task 0, Action.task 0, Action.task 0, Action.task 0,
       Action.task 0, Action.recvErr]
      = some ([], distanceErr) := by
  have hex : ∃ ts, trainRun memStore
      [TrainAction.setVector 0, TrainAction.setHash 0 0, TrainAction.wait]
      (Train.init memStore emptyDb (specDeps biasedPerm) [recC]) = some ts ∧
      ts.ret = some none ∧ ts.db.buckets 0 1 = ["c"] ∧ ts.db.vectors "c" = some [-1, 0] := by
    simp [trainRun, trainExec, Train.init, memStore, recC, hashes_biasedPerm_c,
      TrainTask.finished]
  obtain ⟨ts, hs, hret, hb0, hvc⟩ := hex
  refine ⟨by norm_num [recC, cosine_opposite, cfgCosine], ts, hs, hret, ?_⟩
  simp [Search, run, exec, stepTask, Search.init, hashes_biasedPerm, memStore, hb0, hvc,
    fetch_c_cosine, cfgCosine_MaxNN, distanceErr]

/-- C4 (counterexample): with an unknown metric selector `Search` does not
always fail with the distance error.  When the bucket's first identifier has no
stored vector it fails with the store's error, and when the bucket is empty it
does not return at all. -/
theorem Search_unknown_metric_other_outcomes :
    cfgUnknown.DistanceMetric ≠ (specDeps onePerm).Cosine ∧
    cfgUnknown.DistanceMetric ≠ (specDeps onePerm).Euclidian ∧
    Search memStore dbNoVector (specDeps onePerm) cfgUnknown [1, 0]
      [Action.task 0, Action.task 0, Action.task 0, Action.task 0, Action.task 0,
       Action.task 0, Action.recvErr]
      = some ([], some "vector not found") ∧
    some "vector not found" ≠ distanceErr ∧
    ∀ sched, Search memStore emptyDb (specDeps onePerm) cfgUnknown [1, 0] sched = none := by
  refine ⟨by decide, by decide, ?_, by decide, ?_⟩
  · simp [Search, run, exec, stepTask, Search.init, hashes_onePerm, memStore, dbNoVector,
      afterFetch, cfgUnknown_MaxNN]
  · intro sched
    unfold Search
    cases hr : run memStore emptyDb (specDeps onePerm) cfgUnknown [1, 0] sched
        (Search.init (List String) (specDeps onePerm) [1, 0]) with
    | none => rfl
    | some s =>
      have h := empty_buckets_silent memStore emptyDb (specDeps onePerm) cfgUnknown [1, 0]
        (by simp [hashes_onePerm])
        (by simp [hashes_onePerm, memStore, emptyDb]) sched s hr
      simp [h.2.2]

/-- C4 (amended): when the metric selector is neither `Cosine` nor `Euclidian`
and there is at least one permutation, `Search` never returns a record list
with a `nil` error; whatever it returns is no record and an error that is the
distance error or an error of the store's `GetHashIterator` or `GetVector`; and
every vector fetched without error leads to the distance error. -/
theorem Search_unknown_metric_never_succeeds (st : Store σ ι) (db : σ) (d : Deps)
    (cfg : lshConfig) (query : FloatVec)
    (hc : cfg.DistanceMetric ≠ d.Cosine) (he : cfg.DistanceMetric ≠ d.Euclidian)
    (hn : d.getHashes query ≠ []) (sched : List Action) :
    (∀ records, Search st db d cfg query sched ≠ some (records, none)) ∧
    (∀ records e, Search st db d cfg query sched = some (records, e) →
      records = [] ∧ (e = distanceErr ∨
        (∃ ph ∈ d.getHashes query, e = (st.GetHashIterator ph.1 ph.2 db).2) ∨
        ∃ id, e = (st.GetVector id db).2)) ∧
    (∀ id vec, afterFetch (ι := ι) d cfg query id vec none = PC.sendErr 129 distanceErr) := by
  have hno := no_candidate_of_unknown_metric st db d cfg query hc he
  have hret : ∀ s, run st db d cfg query sched (Search.init ι d query) = some s →
      ∀ records, s.main ≠ Main.returned records := by
    intro s hs records hm
    have hinv := reach_inv st db d cfg query sched s hs
    have hnil := (no_records_of_no_candidate st db d cfg query hno s hinv).1
    have hmi := hinv.main
    rw [hm] at hmi hnil
    simp only [Main.received] at hnil
    subst hnil
    simp only [MainInv, List.length_nil] at hmi
    exact hn (List.eq_nil_of_length_eq_zero hmi.symm)
  refine ⟨?_, ?_, ?_⟩
  · intro records h
    obtain ⟨s, hs, hm⟩ := Search_ok st db d cfg query sched records h
    exact hret s hs records hm
  · intro records e h
    obtain ⟨s, hs, hm | hm⟩ := Search_some st db d cfg query sched records e h
    · exact absurd hm.1 (hret s hs records)
    · refine ⟨hm.2, ?_⟩
      have hmi := (reach_inv st db d cfg query sched s hs).main
      rw [hm.1] at hmi
      obtain ⟨_, ph, hph, hte⟩ := hmi
      rcases hte with h1 | h1 | ⟨id, _, h1⟩
      · exact Or.inl h1.1
      · exact Or.inr (Or.inl ⟨ph, hph, h1⟩)
      · exact Or.inr (Or.inr ⟨id, h1⟩)
  · intro id vec
    have : calcDist d cfg vec query = -1 := by simp [calcDist, hc, he]
    simp [afterFetch, this]

/-- C4 (witness): the amended claim at the store `dbTwo` with the selector 7,
on a schedule that makes `Search` return the distance error. -/
theorem Search_unknown_metric_never_succeeds_witness :
    Search memStore dbTwo (specDeps twoPerms) cfgUnknown [1, 0]
      [Action.task 0, Action.task 0, Action.task 0, Action.task 0, Action.task 0,
       Action.task 0, Action.recvErr] = some ([], distanceErr) ∧
    ((∀ records, Search memStore dbTwo (specDeps twoPerms) cfgUnknown [1, 0]
      [Action.task 0, Action.task 0, Action.task 0, Action.task 0, Action.task 0,
       Action.task 0, Action.recvErr] ≠ some (records, none)) ∧
    (∀ records e, Search memStore dbTwo (specDeps twoPerms) cfgUnknown [1, 0]
      [Action.task 0, Action.task 0, Action.task 0, Action.task 0, Action.task 0,
       Action.task 0, Action.recvErr] = some (records, e) →
      records = [] ∧ (e = distanceErr ∨
        (∃ ph ∈ (specDeps twoPerms).getHashes [1, 0],
          e = (memStore.GetHashIterator ph.1 ph.2 dbTwo).2) ∨
        ∃ id, e = (memStore.GetVector id dbTwo).2)) ∧
    (∀ id vec, afterFetch (ι := List String) (specDeps twoPerms) cfgUnknown [1, 0] id vec none
      = PC.sendErr 129 distanceErr)) :=
  ⟨by simp [Search, run, exec, stepTask, Search.init, hashes_twoPerms, memStore, dbTwo,
      fetch_unknown, cfgUnknown_MaxNN, distanceErr],
   Search_unknown_metric_never_succeeds memStore dbTwo (specDeps twoPerms) cfgUnknown [1, 0]
    (by decide) (by decide) (by simp [hashes_twoPerms]) _⟩

/-- C9: in every state `Search` reaches, each error on `errs` is non-nil and
the caller holds one record per finished iteration of its loop; so when
`Search` returns without error, the number of records equals the number of
entries of the query's hash map. -/
theorem Search_returns_one_record_per_permutation (st : Store σ ι) (db : σ) (d : Deps)
    (cfg : lshConfig) (query : FloatVec) (sched : List Action) (s : State ι)
    (h : run st db d cfg query sched (Search.init ι d query) = some s) :
    (∀ e ∈ s.errs, e ≠ none) ∧
    (∀ k arr, s.main = Main.collecting k arr → arr.length + k = (d.getHashes query).length) ∧
    (∀ records, Search st db d cfg query sched = some (records, none) →
      records.length = (d.getHashes query).length) := by
  have hinv := reach_inv st db d cfg query sched s h
  refine ⟨fun e he => (hinv.errs e he).1, ?_, ?_⟩
  · intro k arr hm
    have := hinv.main
    rw [hm] at this
    exact this
  · intro records hS
    obtain ⟨s2, hs2, hm⟩ := Search_ok st db d cfg query sched records hS
    have := (reach_inv st db d cfg query sched s2 hs2).main
    rw [hm] at this
    exact this

/-- C9 (witness): the claim on the store `dbTwo` with two permutations, on a
schedule under which `Search` returns two records. -/
theorem Search_returns_one_record_per_permutation_witness :
    ∃ s, run memStore dbTwo (specDeps twoPerms) cfgMaxOne [1, 0]
      [Action.task 0, Action.task 1, Action.task 0, Action.task 1, Action.task 0, Action.task 1,
       Action.task 0, Action.task 1, Action.task 0, Action.task 1, Action.task 0, Action.task 1,
       Action.task 0, Action.task 1, Action.recvClosest, Action.recvClosest, Action.ret]
      (Search.init (List String) (specDeps twoPerms) [1, 0]) = some s ∧
    s.main = Main.returned [{ ID := "a", Vec := [1, 0] }, { ID := "b", Vec := [2, 0] }] ∧
    ((∀ e ∈ s.errs, e ≠ none) ∧
    (∀ k arr, s.main = Main.collecting k arr →
      arr.length + k = ((specDeps twoPerms).getHashes [1, 0]).length) ∧
    (∀ records, Search memStore dbTwo (specDeps twoPerms) cfgMaxOne [1, 0]
      [Action.task 0, Action.task 1, Action.task 0, Action.task 1, Action.task 0, Action.task 1,
       Action.task 0, Action.task 1, Action.task 0, Action.task 1, Action.task 0, Action.task 1,
       Action.task 0, Action.task 1, Action.recvClosest, Action.recvClosest, Action.ret]
        = some (records, none) →
      records.length = ((specDeps twoPerms).getHashes [1, 0]).length)) := by
  have hex : ∃ s, run memStore dbTwo (specDeps twoPerms) cfgMaxOne [1, 0]
      [Action.task 0, Action.task 1, Action.task 0, Action.task 1, Action.task 0, Action.task 1,
       Action.task 0, Action.task 1, Action.task 0, Action.task 1, Action.task 0, Action.task 1,
       Action.task 0, Action.task 1, Action.recvClosest, Action.recvClosest, Action.ret]
      (Search.init (List String) (specDeps twoPerms) [1, 0]) = some s ∧
      s.main = Main.returned [{ ID := "a", Vec := [1, 0] }, { ID := "b", Vec := [2, 0] }] := by
    simp [run, exec, stepTask, Search.init, hashes_twoPerms, memStore, dbTwo,
      fetch_a_maxOne, fetch_b_maxOne, cfgMaxOne_MaxNN]
  obtain ⟨s, hs, hm⟩ := hex
  exact ⟨s, hs, hm, Search_returns_one_record_per_permutation memStore dbTwo (specDeps twoPerms)
    cfgMaxOne [1, 0] _ s hs⟩

/-- C10 (counterexample): not every goroutine calls `Next`.  With two
permutations and `MaxNN = 1`, once the first goroutine has sent its match (and
returned at line 136) the second one finds `len(closest) == maxNN` at line 104
and returns at line 105 without opening its bucket: it has made no call of
`Next`. -/
theorem Search_task_returns_without_Next :
    ∃ s, run memStore dbTwo (specDeps twoPerms) cfgMaxOne [1, 0]
      [Action.task 0, Action.task 0, Action.task 0, Action.task 0, Action.task 0, Action.task 0,
       Action.task 0, Action.task 0, Action.task 1]
      (Search.init (List String) (specDeps twoPerms) [1, 0]) = some s ∧
    s.tasks.map (fun t => (t.perm, t.pc.isDone, t.nexts)) = [(0, true, 1), (1, true, 0)] ∧
    s.tasks.map (fun t => t.pc.exitLine) = [some 136, some 105] := by
  simp [run, exec, stepTask, Search.init, hashes_twoPerms, memStore, dbTwo,
    fetch_a_maxOne, fetch_b_maxOne, cfgMaxOne_MaxNN, PC.isDone, PC.exitLine]

/-- C10 (amended): each goroutine calls `Next` at most once, and the number of
calls is fixed by its program point: none before the init statement of line
112, none when it is about to report the error of `GetHashIterator` (line 109)
or has returned at line 105 (`len(closest) == maxNN`) or at line 110
(`GetHashIterator` failed); exactly one when it holds an identifier, is about
to report an error at line 118 or 129, or has returned anywhere else (lines
119, 130, 136, or the end of the function after the loop).  The identifier it
holds and the identifier of a match it has sent is the first one of its
bucket's iterator, it sends at most one event, and the IDs returned by a
successful `Search` are, up to order, a sublist of the first identifiers of
the probed buckets, one per permutation. -/
theorem Search_task_examines_first_identifier_only (st : Store σ ι) (db : σ) (d : Deps)
    (cfg : lshConfig) (query : FloatVec) (sched : List Action) (s : State ι)
    (h : run st db d cfg query sched (Search.init ι d query) = some s) :
    (∀ t ∈ s.tasks, t.nexts ≤ 1 ∧ t.sent.length ≤ 1 ∧
      (t.pc.beforeNext = true → t.nexts = 0) ∧
      (∀ id, t.pc.ident = some id → t.nexts = 1 ∧ id = firstId st db (t.perm, t.hash)) ∧
      (∀ line e, t.pc = PC.sendErr line e →
        (line = 109 ∧ t.nexts = 0) ∨ ((line = 118 ∨ line = 129) ∧ t.nexts = 1)) ∧
      (∀ line, t.pc = PC.done line →
        ((line = 105 ∨ line = 110) ∧ t.nexts = 0) ∨
        ((line = 119 ∨ line = 130 ∨ line = 136 ∨ line = 140) ∧ t.nexts = 1)) ∧
      (∀ r, Event.found r ∈ t.sent → r.ID = firstId st db (t.perm, t.hash))) ∧
    (∀ records, Search st db d cfg query sched = some (records, none) →
      List.Subperm (records.map (fun r => r.ID)) ((d.getHashes query).map (firstId st db))) := by
  have hinv := reach_inv st db d cfg query sched s h
  constructor
  · intro t ht
    obtain ⟨h1, _, h3, h4, h5⟩ := hinv.tasks t ht
    refine ⟨h3, h4, ?_, ?_, ?_, ?_, ?_⟩
    · intro hb
      cases hpc : t.pc <;> simp_all [PC.beforeNext]
    · intro id hid
      cases hpc : t.pc <;> simp_all [PC.ident, First, firstId, Candidate]
    · intro line e hpc
      simp only [hpc] at h5
      exact h5.2.2.2
    · intro line hpc
      simp only [hpc] at h5
      exact h5
    · intro r hr
      have := (h1 r hr).1.2
      simp only [firstId, this]
  · intro records hS
    obtain ⟨s2, hs2, hm⟩ := Search_ok st db d cfg query sched records hS
    have hinv2 := reach_inv st db d cfg query sched s2 hs2
    have hrec := hinv2.records
    rw [hm] at hrec
    simp only [Main.received] at hrec
    have h1 : List.Subperm records (s2.tasks.flatMap sentRecords) :=
      List.Subperm.trans (List.sublist_append_left records s2.closest).subperm hrec
    have h2 := subperm_map (fun r : Record => r.ID) h1
    have h3 := flatMap_map_sublist sentRecords (fun r : Record => r.ID)
      (fun t : Task ι => firstId st db (t.perm, t.hash)) s2.tasks
      (fun t ht => sentRecords_sublist st db d cfg query s2.closestSet t (hinv2.tasks t ht))
    have h4 : s2.tasks.map (fun t : Task ι => firstId st db (t.perm, t.hash))
        = (d.getHashes query).map (firstId st db) := by
      rw [← hinv2.keys, List.map_map]
      rfl
    rw [h4] at h3
    exact List.Subperm.trans h2 h3.subperm

/-- C10 (witness): the amended claim on the store `dbTwo` with two
permutations, on a schedule under which `Search` returns. -/
theorem Search_task_examines_first_identifier_only_witness :
    ∃ s, run memStore dbTwo (specDeps twoPerms) cfgMaxOne [1, 0]
      [Action.task 0, Action.task 1, Action.task 0, Action.task 1, Action.task 0, Action.task 1,
       Action.task 0, Action.task 1, Action.task 0, Action.task 1, Action.task 0, Action.task 1,
       Action.task 0, Action.task 1, Action.recvClosest, Action.recvClosest, Action.ret]
      (Search.init (List String) (specDeps twoPerms) [1, 0]) = some s ∧
    s.main = Main.returned [{ ID := "a", Vec := [1, 0] }, { ID := "b", Vec := [2, 0] }] ∧
    ((∀ t ∈ s.tasks, t.nexts ≤ 1 ∧ t.sent.length ≤ 1 ∧
      (t.pc.beforeNext = true → t.nexts = 0) ∧
      (∀ id, t.pc.ident = some id →
        t.nexts = 1 ∧ id = firstId memStore dbTwo (t.perm, t.hash)) ∧
      (∀ line e, t.pc = PC.sendErr line e →
        (line = 109 ∧ t.nexts = 0) ∨ ((line = 118 ∨ line = 129) ∧ t.nexts = 1)) ∧
      (∀ line, t.pc = PC.done line →
        ((line = 105 ∨ line = 110) ∧ t.nexts = 0) ∨
        ((line = 119 ∨ line = 130 ∨ line = 136 ∨ line = 140) ∧ t.nexts = 1)) ∧
      (∀ r, Event.found r ∈ t.sent → r.ID = firstId memStore dbTwo (t.perm, t.hash))) ∧
    (∀ records, Search memStore dbTwo (specDeps twoPerms) cfgMaxOne [1, 0]
      [Action.task 0, Action.task 1, Action.task 0, Action.task 1, Action.task 0, Action.task 1,
       Action.task 0, Action.task 1, Action.task 0, Action.task 1, Action.task 0, Action.task 1,
       Action.task 0, Action.task 1, Action.recvClosest, Action.recvClosest, Action.ret]
        = some (records, none) →
      List.Subperm (records.map (fun r => r.ID))
        (((specDeps twoPerms).getHashes [1, 0]).map (firstId memStore dbTwo)))) := by
  have hex : ∃ s, run memStore dbTwo (specDeps twoPerms) cfgMaxOne [1, 0]
      [Action.task 0, Action.task 1, Action.task 0, Action.task 1, Action.task 0, Action.task 1,
       Action.task 0, Action.task 1, Action.task 0, Action.task 1, Action.task 0, Action.task 1,
       Action.task 0, Action.task 1, Action.recvClosest, Action.recvClosest, Action.ret]
      (Search.init (List String) (specDeps twoPerms) [1, 0]) = some s ∧
      s.main = Main.returned [{ ID := "a", Vec := [1, 0] }, { ID := "b", Vec := [2, 0] }] := by
    simp [run, exec, stepTask, Search.init, hashes_twoPerms, memStore, dbTwo,
      fetch_a_maxOne, fetch_b_maxOne, cfgMaxOne_MaxNN]
  obtain ⟨s, hs, hm⟩ := hex
  exact ⟨s, hs, hm, Search_task_examines_first_identifier_only memStore dbTwo
    (specDeps twoPerms) cfgMaxOne [1, 0] _ s hs⟩

end SearchClaims


/-! ## Claims about `Train` -/

section TrainClaims
variable {σ ι : Type}

theorem hashes_recordA : (specDeps onePerm).getHashes recordA.Vec = [(0, 1)] := by
  simp [recordA, specDeps, getHashes, onePerm, hasherInstance.getHash, dot, List.enum,
    List.enumFrom]

theorem hashes_recordB : (specDeps onePerm).getHashes recordB.Vec = [(0, 0)] := by
  simp [recordB, specDeps, getHashes, onePerm, hasherInstance.getHash, dot, List.enum,
    List.enumFrom]
  norm_num

/-- C7: if `Clear` fails, `Train` has returned `Clear`'s error at once and the
only store call made is `Clear`.  If `Clear` succeeds, `Train` never returns an
error whatever `SetVector` and `SetHash` return, it can always move on until it
has returned, and it returns after exactly one store call per record and per
hash entry.  In both cases the value `Train` returns is the error of `Clear`. -/
theorem Train_returns_error_of_Clear_only (st : Store σ ι) (db : σ) (d : Deps)
    (records : List Record) (sched : List TrainAction) (s : TrainState σ)
    (h : trainRun st sched (Train.init st db d records) = some s) :
    ((st.Clear db).2 ≠ none →
      sched = [] ∧ s.ret = some (st.Clear db).2 ∧ s.calls = [Call.clear]) ∧
    ((st.Clear db).2 = none →
      (∀ e, s.ret = some e → e = none) ∧
      (s.ret = none → ∃ a s', trainExec st s a = some s') ∧
      sched.length + (trainWork s.tasks + (if s.ret = none then 1 else 0))
        = (records.map (fun r => 1 + (d.getHashes r.Vec).length)).sum + 1) ∧
    (∀ e db', Train st db d records sched = some (e, db') → e = (st.Clear db).2) := by
  have hfuel := trainRun_fuel st sched _ s h
  have hfail : (st.Clear db).2 ≠ none →
      sched = [] ∧ s.ret = some (st.Clear db).2 ∧ s.calls = [Call.clear] := by
    intro hc
    have hinit : Train.init st db d records =
        { db := (st.Clear db).1, tasks := [], calls := [Call.clear],
          ret := some (st.Clear db).2 } := by
      simp only [Train.init]
      exact if_pos hc
    have hs : sched = [] := by
      by_contra hne
      have := (hfuel.2 hne).1
      rw [hinit] at this
      simp at this
    subst hs
    simp only [trainRun, Option.some.injEq] at h
    subst h
    rw [hinit]
    exact ⟨rfl, rfl, rfl⟩
  have hok : (st.Clear db).2 = none →
      (∀ e, s.ret = some e → e = none) ∧
      (s.ret = none → ∃ a s', trainExec st s a = some s') ∧
      sched.length + (trainWork s.tasks + (if s.ret = none then 1 else 0))
        = (records.map (fun r => 1 + (d.getHashes r.Vec).length)).sum + 1 := by
    intro hc
    have hinit : Train.init st db d records =
        { db := (st.Clear db).1
          tasks := records.map
            (fun r => { record := r, vecSet := false, hashes := d.getHashes r.Vec })
          calls := [Call.clear]
          ret := none } := by
      simp [Train.init, hc]
    refine ⟨?_, trainExec_progress st s, ?_⟩
    · intro e he
      cases sched with
      | nil =>
        simp only [trainRun, Option.some.injEq] at h
        subst h
        rw [hinit] at he
        simp at he
      | cons a as => exact (hfuel.2 (by simp)).2 e he
    · rw [hfuel.1, hinit]
      simp [trainWork, Function.comp_def]
  refine ⟨hfail, hok, ?_⟩
  intro e db' hT
  simp only [Train, h] at hT
  cases hr : s.ret with
  | none => simp [hr] at hT
  | some e2 =>
    simp only [hr, Option.some.injEq, Prod.mk.injEq] at hT
    obtain ⟨rfl, _⟩ := hT
    by_cases hc : (st.Clear db).2 = none
    · rw [hc]; exact (hok hc).1 e2 hr
    · have := (hfail hc).2.1
      rw [hr] at this
      exact Option.some.inj this

/-- C7 (witness): over the store whose writes fail, `Train` on the record `A`
runs `SetVector`, `SetHash` and returns `nil`. -/
theorem Train_returns_error_of_Clear_only_witness :
    ∃ s, trainRun failingStore
      [TrainAction.setVector 0, TrainAction.setHash 0 0, TrainAction.wait]
      (Train.init failingStore emptyDb (specDeps onePerm) [recordA]) = some s ∧
    s.ret = some none ∧
    (((failingStore.Clear emptyDb).2 ≠ none →
      [TrainAction.setVector 0, TrainAction.setHash 0 0, TrainAction.wait] = [] ∧
      s.ret = some (failingStore.Clear emptyDb).2 ∧ s.calls = [Call.clear]) ∧
    ((failingStore.Clear emptyDb).2 = none →
      (∀ e, s.ret = some e → e = none) ∧
      (s.ret = none → ∃ a s', trainExec failingStore s a = some s') ∧
      [TrainAction.setVector 0, TrainAction.setHash 0 0, TrainAction.wait].length +
          (trainWork s.tasks + (if s.ret = none then 1 else 0))
        = ([recordA].map (fun r => 1 + ((specDeps onePerm).getHashes r.Vec).length)).sum + 1) ∧
    (∀ e db', Train failingStore emptyDb (specDeps onePerm) [recordA]
        [TrainAction.setVector 0, TrainAction.setHash 0 0, TrainAction.wait] = some (e, db') →
      e = (failingStore.Clear emptyDb).2)) := by
  have hex : ∃ s, trainRun failingStore
      [TrainAction.setVector 0, TrainAction.setHash 0 0, TrainAction.wait]
      (Train.init failingStore emptyDb (specDeps onePerm) [recordA]) = some s ∧
      s.ret = some none := by
    simp [trainRun, trainExec, Train.init, failingStore, memStore, hashes_recordA,
      TrainTask.finished]
  obtain ⟨s, hs, hret⟩ := hex
  exact ⟨s, hs, hret, Train_returns_error_of_Clear_only failingStore emptyDb (specDeps onePerm)
    [recordA] _ s hs⟩

/-- C3 (counterexample): over a store whose `SetVector` and `SetHash` report
an error and store nothing, `Train` on the record `A` still returns `nil`,
while `GetVector("A")` fails and `A` is in no bucket. -/
theorem Train_returns_nil_when_writes_fail :
    ∃ db', Train failingStore emptyDb (specDeps onePerm) [recordA]
      [TrainAction.setVector 0, TrainAction.setHash 0 0, TrainAction.wait] = some (none, db') ∧
    (failingStore.GetVector recordA.ID db').2 ≠ none ∧
    recordA.ID ∉ db'.buckets 0 1 := by
  refine ⟨emptyDb, ?_, ?_, ?_⟩
  · simp [Train, trainRun, trainExec, Train.init, failingStore, memStore, hashes_recordA,
      TrainTask.finished, emptyDb]
  · simp [failingStore, memStore, emptyDb]
  · simp [emptyDb]

/-- C3 (amended): over the in-memory store, whose writes all succeed, for every
prior state and every list of records with pairwise distinct IDs, when `Train`
has returned: `GetVector` yields the submitted vector of every submitted
record; every submitted ID is in the bucket of each of its hash entries; every
stored vector and every bucket member belongs to a submitted record; and every
record a later successful `Search` returns is a submitted record. -/
theorem Train_store_reflects_records (prior : MemStore) (d : Deps) (records : List Record)
    (hnd : (records.map (fun r => r.ID)).Nodup) (sched : List TrainAction)
    (s : TrainState MemStore)
    (h : trainRun memStore sched (Train.init memStore prior d records) = some s)
    (hret : s.ret = some none) :
    (∀ r ∈ records, memStore.GetVector r.ID s.db = (r.Vec, none)) ∧
    (∀ r ∈ records, ∀ ph ∈ d.getHashes r.Vec, r.ID ∈ s.db.buckets ph.1 ph.2) ∧
    (∀ id v, s.db.vectors id = some v → { ID := id, Vec := v } ∈ records) ∧
    (∀ p h id, id ∈ s.db.buckets p h →
      ∃ r ∈ records, r.ID = id ∧ (p, h) ∈ d.getHashes r.Vec) ∧
    (∀ cfg query ssched out,
      Search memStore s.db d cfg query ssched = some (out, none) → ∀ r ∈ out, r ∈ records) := by
  obtain ⟨h1, h2, h3, h4⟩ := train_final prior d records hnd sched s h hret
  refine ⟨?_, h2, h3, h4, ?_⟩
  · intro r hr
    simp [memStore, h1 r hr]
  · intro cfg query ssched out hS r hr
    obtain ⟨ph, _, hc⟩ := (Search_result_candidate memStore s.db d cfg query ssched out hS).2 r hr
    have hv := hc.2.1
    simp only [memStore] at hv
    cases hvec : s.db.vectors r.ID with
    | none => simp [hvec] at hv
    | some v =>
      simp only [hvec, Prod.mk.injEq, and_true] at hv
      subst hv
      exact h3 r.ID _ hvec

/-- C3 (witness): `Train` on `A` and `B` over the empty in-memory store. -/
theorem Train_store_reflects_records_witness :
    ∃ s, trainRun memStore
      [TrainAction.setVector 0, TrainAction.setVector 1, TrainAction.setHash 1 0,
       TrainAction.setHash 0 0, TrainAction.wait]
      (Train.init memStore emptyDb (specDeps onePerm) [recordA, recordB]) = some s ∧
    s.ret = some none ∧ ([recordA, recordB].map (fun r => r.ID)).Nodup ∧
    ((∀ r ∈ [recordA, recordB], memStore.GetVector r.ID s.db = (r.Vec, none)) ∧
    (∀ r ∈ [recordA, recordB], ∀ ph ∈ (specDeps onePerm).getHashes r.Vec,
      r.ID ∈ s.db.buckets ph.1 ph.2) ∧
    (∀ id v, s.db.vectors id = some v → { ID := id, Vec := v } ∈ [recordA, recordB]) ∧
    (∀ p h id, id ∈ s.db.buckets p h →
      ∃ r ∈ [recordA, recordB], r.ID = id ∧ (p, h) ∈ (specDeps onePerm).getHashes r.Vec) ∧
    (∀ cfg query ssched out,
      Search memStore s.db (specDeps onePerm) cfg query ssched = some (out, none) →
      ∀ r ∈ out, r ∈ [recordA, recordB])) := by
  have hex : ∃ s, trainRun memStore
      [TrainAction.setVector 0, TrainAction.setVector 1, TrainAction.setHash 1 0,
       TrainAction.setHash 0 0, TrainAction.wait]
      (Train.init memStore emptyDb (specDeps onePerm) [recordA, recordB]) = some s ∧
      s.ret = some none := by
    simp [trainRun, trainExec, Train.init, memStore, hashes_recordA, hashes_recordB,
      TrainTask.finished]
  have hnd : ([recordA, recordB].map (fun r => r.ID)).Nodup := by
    simp [recordA, recordB]
  obtain ⟨s, hs, hret⟩ := hex
  exact ⟨s, hs, hret, hnd, Train_store_reflects_records emptyDb (specDeps onePerm)
    [recordA, recordB] hnd _ s hs hret⟩

theorem cfgScenario_MaxNN (thr : ℚ) (maxNN : Int) : (cfgScenario thr maxNN).MaxNN = maxNN := rfl

theorem calcDist_scenario (thr : ℚ) (maxNN : Int) :
    calcDist (specDeps onePerm) (cfgScenario thr maxNN) [1, 0] [1, 0] = 0 := by
  norm_num [calcDist, specDeps, L2, cfgScenario]

theorem fetch_scenario (thr : ℚ) (maxNN : Int) (hthr : 0 ≤ thr) :
    afterFetch (ι := List String) (specDeps onePerm) (cfgScenario thr maxNN) [1, 0] "A" [1, 0] none
      = PC.mark "A" [1, 0] := by
  have hd := calcDist_scenario thr maxNN
  have ht : (cfgScenario thr maxNN).DistanceThrsh = thr := rfl
  simp [afterFetch, hd, ht, hthr]

/-- In the concrete scenario every action keeps `Search` within
`ScenarioInv`. -/
theorem scenario_step (db : MemStore) (thr : ℚ) (maxNN : Int) (rest : List String)
    (hb : db.buckets 0 1 = "A" :: rest) (hvA : db.vectors "A" = some [1, 0])
    (hthr : 0 ≤ thr) (hmax : 1 ≤ maxNN) (s : State (List String)) (a : Action)
    (s' : State (List String)) (hJ : ScenarioInv s)
    (hx : exec memStore db (specDeps onePerm) (cfgScenario thr maxNN) [1, 0] s a = some s') :
    ScenarioInv s' := by
  have h0 : ¬ (0 : Int) = maxNN := by omega
  obtain ⟨t, hts, hp, hh, he, hcap, hpc⟩ := hJ
  cases a with
  | task i =>
    cases i with
    | succ n =>
      simp only [exec, hts] at hx
      cases hm : s.main <;> simp [hm] at hx
    | zero =>
      cases hm : s.main with
      | returned arr => simp [exec, hm] at hx
      | failed e => simp [exec, hm] at hx
      | collecting k arr =>
        simp only [exec, hm, hts, List.getElem?_cons_zero] at hx
        cases hs : stepTask memStore db (specDeps onePerm) (cfgScenario thr maxNN) [1, 0] s t with
        | none => simp [hs] at hx
        | some p =>
          obtain ⟨t', s1⟩ := p
          simp only [hs, Option.some.injEq] at hx
          subst hx
          unfold stepTask at hs
          cases hpcs : t.pc with
          | start =>
            simp only [hpcs] at hs hpc
            obtain ⟨hset, hc, hm2⟩ := hpc
            simp only [hc, List.length_nil, Nat.cast_zero, cfgScenario_MaxNN, h0, if_false,
              Option.some.injEq, Prod.mk.injEq] at hs
            obtain ⟨rfl, rfl⟩ := hs
            refine ⟨{ t with pc := PC.openIter }, by simp [hts], hp, hh, he, hcap, ?_⟩
            simp [scenarioFresh, scenarioEarly, hc, hm2, hset]
          | openIter =>
            simp only [hpcs] at hs hpc
            obtain ⟨hset, hc, hm2⟩ := hpc
            simp only [memStore, ne_eq, not_true_eq_false, if_false,
              Option.some.injEq, Prod.mk.injEq] at hs
            obtain ⟨rfl, rfl⟩ := hs
            refine ⟨{ t with pc := PC.callNext (db.buckets t.perm t.hash) }, by simp [hts],
              hp, hh, he, hcap, ?_⟩
            simp [scenarioFresh, scenarioEarly, hc, hm2, hp, hh, hb, hset]
          | callNext iter =>
            simp only [hpcs] at hs hpc
            obtain ⟨⟨r2, rfl⟩, hset, hc, hm2⟩ := hpc
            simp only [memStore, if_true, Option.some.injEq, Prod.mk.injEq] at hs
            obtain ⟨rfl, rfl⟩ := hs
            refine ⟨{ t with pc := PC.loopTop "A", nexts := t.nexts + 1 }, by simp [hts],
              hp, hh, he, hcap, ?_⟩
            simp [scenarioFresh, scenarioEarly, hc, hm2, hset]
          | loopTop id =>
            simp only [hpcs] at hs hpc
            obtain ⟨rfl, hpc⟩ := hpc
            split at hs <;>
              (simp only [Option.some.injEq, Prod.mk.injEq] at hs; obtain ⟨rfl, rfl⟩ := hs)
            · rename_i hin
              refine ⟨{ t with pc := PC.loopTop "A" }, by simp [hts], hp, hh, he, hcap, ?_⟩
              rcases hpc with hf | hl
              · rw [hf.1] at hin; simp at hin
              · exact ⟨rfl, Or.inr (by simpa [scenarioLate] using hl)⟩
            · rename_i hin
              refine ⟨{ t with pc := PC.getVec "A" }, by simp [hts], hp, hh, he, hcap, ?_⟩
              rcases hpc with hf | hl
              · exact ⟨rfl, by simpa [scenarioFresh, scenarioEarly] using hf⟩
              · exact absurd hl.1 hin
          | getVec id =>
            simp only [hpcs] at hs hpc
            obtain ⟨rfl, hset, hc, hm2⟩ := hpc
            simp only [memStore, hvA, fetch_scenario thr maxNN hthr,
              Option.some.injEq, Prod.mk.injEq] at hs
            obtain ⟨rfl, rfl⟩ := hs
            refine ⟨{ t with pc := PC.mark "A" [1, 0] }, by simp [hts], hp, hh, he, hcap, ?_⟩
            simp [scenarioFresh, scenarioEarly, hc, hm2, hset]
          | mark id vec =>
            simp only [hpcs] at hs hpc
            obtain ⟨rfl, rfl, hset, hc, hm2⟩ := hpc
            simp only [Option.some.injEq, Prod.mk.injEq] at hs
            obtain ⟨rfl, rfl⟩ := hs
            refine ⟨{ t with pc := PC.send "A" [1, 0] }, by simp [hts], hp, hh, he, hcap, ?_⟩
            simp [scenarioEarly, hc, hm2, hset]
          | send id vec =>
            simp only [hpcs] at hs hpc
            obtain ⟨rfl, rfl, hin, hc, hm2⟩ := hpc
            have hlt : s.closest.length < s.cap := by simp [hc, hcap]
            simp only [hlt, if_true, Option.some.injEq, Prod.mk.injEq] at hs
            obtain ⟨rfl, rfl⟩ := hs
            refine ⟨{ t with pc := PC.lenCheck "A",
                             sent := t.sent ++ [Event.found { ID := "A", Vec := [1, 0] }] },
              by simp [hts], hp, hh, he, hcap, ?_⟩
            simp [scenarioLate, hm2, hin, hc, recordA]
          | lenCheck id =>
            simp only [hpcs] at hs hpc
            obtain ⟨rfl, hin, hl⟩ := hpc
            split at hs <;>
              (simp only [Option.some.injEq, Prod.mk.injEq] at hs; obtain ⟨rfl, rfl⟩ := hs)
            · refine ⟨{ t with pc := PC.done 136 }, by simp [hts], hp, hh, he, hcap, ?_⟩
              simpa [scenarioLate] using hl
            · refine ⟨{ t with pc := PC.loopTop "A" }, by simp [hts], hp, hh, he, hcap, ?_⟩
              simp only [true_and]
              exact Or.inr ⟨hin, by simpa [scenarioLate] using hl⟩
          | sendErr line e => simp [hpcs] at hpc
          | done line => simp [hpcs] at hs
  | recvClosest =>
    simp only [exec] at hx
    split at hx
    · rename_i k arr res rs hm hc
      simp only [Option.some.injEq] at hx
      subst hx
      refine ⟨t, hts, hp, hh, he, hcap, ?_⟩
      have hlate : scenarioLate s := by
        cases hpcs : t.pc <;> simp only [hpcs] at hpc
        all_goals first
          | exact hpc
          | exact hpc.2.2
          | (rcases hpc.2 with hf | hl
             · simp [scenarioFresh, scenarioEarly, hc] at hf
             · exact hl.2)
          | (exfalso; simp [scenarioFresh, scenarioEarly, hc] at hpc)
      have hl2 : scenarioLate
          { s with closest := rs, main := Main.collecting k (arr ++ [res]) } := by
        rcases hlate with ⟨h1, h2⟩ | ⟨h1, _⟩
        · rw [h1] at hc
          rw [h2] at hm
          simp only [List.cons.injEq, Main.collecting.injEq] at hc hm
          obtain ⟨rfl, rfl⟩ := hc
          obtain ⟨hk, rfl⟩ := hm
          have hk0 : k = 0 := by omega
          subst hk0
          simp [scenarioLate]
        · rw [h1] at hc; simp at hc
      cases hpcs : t.pc <;> simp only [hpcs] at hpc ⊢
      all_goals first
        | exact hl2
        | exact ⟨hpc.1, hpc.2.1, hl2⟩
        | (refine ⟨hpc.1, Or.inr ?_⟩
           rcases hpc.2 with hf | hl
           · simp [scenarioFresh, scenarioEarly, hc] at hf
           · exact ⟨hl.1, hl2⟩)
        | (exfalso; simp [scenarioFresh, scenarioEarly, hc] at hpc)
    · simp at hx
  | recvErr => simp [exec, he] at hx
  | ret =>
    simp only [exec] at hx
    split at hx
    · rename_i arr hm
      simp only [Option.some.injEq] at hx
      subst hx
      refine ⟨t, hts, hp, hh, he, hcap, ?_⟩
      have hlate : scenarioLate s := by
        cases hpcs : t.pc <;> simp only [hpcs] at hpc
        all_goals first
          | exact hpc
          | exact hpc.2.2
          | (rcases hpc.2 with hf | hl
             · simp [scenarioFresh, scenarioEarly, hm] at hf
             · exact hl.2)
          | (exfalso; simp [scenarioFresh, scenarioEarly, hm] at hpc)
      have hl2 : scenarioLate { s with main := Main.returned arr } := by
        rcases hlate with ⟨_, h2⟩ | ⟨h1, h2 | h2⟩
        · rw [h2] at hm; simp at hm
        · rw [h2] at hm
          simp only [Main.collecting.injEq, true_and] at hm
          subst hm
          simp [scenarioLate, h1]
        · rw [h2] at hm; simp at hm
      cases hpcs : t.pc <;> simp only [hpcs] at hpc ⊢
      all_goals first
        | exact hl2
        | exact ⟨hpc.1, hpc.2.1, hl2⟩
        | (refine ⟨hpc.1, Or.inr ?_⟩
           rcases hpc.2 with hf | hl
           · simp [scenarioFresh, scenarioEarly, hm] at hf
           · exact ⟨hl.1, hl2⟩)
        | (exfalso; simp [scenarioFresh, scenarioEarly, hm] at hpc)
    · simp at hx

/-- In the concrete scenario the caller is in its single iteration, or has
taken `A`, or has returned `[A]`. -/
theorem scenario_main (s : State (List String)) (hJ : ScenarioInv s) :
    s.main = Main.collecting 1 [] ∨ s.main = Main.collecting 0 [recordA] ∨
      s.main = Main.returned [recordA] := by
  obtain ⟨t, _, _, _, _, _, hpc⟩ := hJ
  have hlate : scenarioLate s → s.main = Main.collecting 1 [] ∨
      s.main = Main.collecting 0 [recordA] ∨ s.main = Main.returned [recordA] := by
    rintro (⟨_, h⟩ | ⟨_, h | h⟩)
    · exact Or.inl h
    · exact Or.inr (Or.inl h)
    · exact Or.inr (Or.inr h)
  cases hpcs : t.pc <;> simp only [hpcs] at hpc
  · exact Or.inl hpc.2.2
  · exact Or.inl hpc.2.2
  · exact Or.inl hpc.2.2.2
  · rcases hpc.2 with hf | hl
    · exact Or.inl hf.2.2
    · exact hlate hl.2
  · exact Or.inl hpc.2.2.2
  · exact Or.inl hpc.2.2.2.2
  · exact Or.inl hpc.2.2.2.2
  · exact hlate hpc.2.2
  · exact hlate hpc

/-- In the concrete scenario, while `Search` has not returned, some action is
enabled that brings it closer to returning. -/
theorem scenario_progress (db : MemStore) (thr : ℚ) (maxNN : Int)
    (hvA : db.vectors "A" = some [1, 0])
    (hthr : 0 ≤ thr) (hmax : 1 ≤ maxNN) (s : State (List String)) (hJ : ScenarioInv s)
    (hne : s.main ≠ Main.returned [recordA]) :
    ∃ a s', exec memStore db (specDeps onePerm) (cfgScenario thr maxNN) [1, 0] s a = some s' ∧
      scenarioRank s' < scenarioRank s := by
  have h0 : ¬ (0 : Int) = maxNN := by omega
  have key : ∀ a, (∀ s', exec memStore db (specDeps onePerm) (cfgScenario thr maxNN) [1, 0] s a
        = some s' → scenarioRank s' < scenarioRank s) →
      exec memStore db (specDeps onePerm) (cfgScenario thr maxNN) [1, 0] s a ≠ none →
      ∃ a s', exec memStore db (specDeps onePerm) (cfgScenario thr maxNN) [1, 0] s a = some s' ∧
        scenarioRank s' < scenarioRank s := by
    intro a h1 h2
    cases hx : exec memStore db (specDeps onePerm) (cfgScenario thr maxNN) [1, 0] s a with
    | none => exact absurd hx h2
    | some s' => exact ⟨a, s', hx, h1 s' hx⟩
  obtain ⟨t, hts, hp, hh, he, hcap, hpc⟩ := hJ
  have hlate : scenarioLate s →
      ∃ a s', exec memStore db (specDeps onePerm) (cfgScenario thr maxNN) [1, 0] s a = some s' ∧
        scenarioRank s' < scenarioRank s := by
    rintro (⟨hc, hm⟩ | ⟨hc, hm | hm⟩)
    · refine key Action.recvClosest ?_ ?_
      · intro s' hx
        simp only [exec, hm, hc, Option.some.injEq] at hx
        subst hx
        simp [scenarioRank, hm, hc]
      · simp [exec, hm, hc]
    · refine key Action.ret ?_ ?_
      · intro s' hx
        simp only [exec, hm, Option.some.injEq] at hx
        subst hx
        simp [scenarioRank, hm]
      · simp [exec, hm]
    · exact absurd hm hne
  cases hpcs : t.pc with
  | start =>
    simp only [hpcs] at hpc
    obtain ⟨hset, hc, hm⟩ := hpc
    refine key (Action.task 0) ?_ ?_
    · intro s' hx
      simp [exec, hm, hts, stepTask, hpcs, hc, cfgScenario_MaxNN, h0] at hx
      subst hx
      simp [scenarioRank, hm, hc, hts, hpcs, scenarioPcRank]
    · simp [exec, hm, hts, stepTask, hpcs, hc, cfgScenario_MaxNN, h0]
  | openIter =>
    simp only [hpcs] at hpc
    obtain ⟨hset, hc, hm⟩ := hpc
    refine key (Action.task 0) ?_ ?_
    · intro s' hx
      simp [exec, hm, hts, stepTask, hpcs, memStore] at hx
      subst hx
      simp [scenarioRank, hm, hc, hts, hpcs, scenarioPcRank]
    · simp [exec, hm, hts, stepTask, hpcs, memStore]
  | callNext iter =>
    simp only [hpcs] at hpc
    obtain ⟨⟨r2, rfl⟩, hset, hc, hm⟩ := hpc
    refine key (Action.task 0) ?_ ?_
    · intro s' hx
      simp [exec, hm, hts, stepTask, hpcs, memStore] at hx
      subst hx
      simp [scenarioRank, hm, hc, hts, hpcs, scenarioPcRank]
    · simp [exec, hm, hts, stepTask, hpcs, memStore]
  | loopTop id =>
    simp only [hpcs] at hpc
    obtain ⟨rfl, hf | hl⟩ := hpc
    · obtain ⟨hset, hc, hm⟩ := hf
      refine key (Action.task 0) ?_ ?_
      · intro s' hx
        simp [exec, hm, hts, stepTask, hpcs, hset] at hx
        subst hx
        simp [scenarioRank, hm, hc, hts, hpcs, scenarioPcRank]
      · simp [exec, hm, hts, stepTask, hpcs, hset]
    · exact hlate hl.2
  | getVec id =>
    simp only [hpcs] at hpc
    obtain ⟨rfl, hset, hc, hm⟩ := hpc
    refine key (Action.task 0) ?_ ?_
    · intro s' hx
      simp [exec, hm, hts, stepTask, hpcs, memStore, hvA, fetch_scenario thr maxNN hthr] at hx
      subst hx
      simp [scenarioRank, hm, hc, hts, hpcs, scenarioPcRank]
    · simp [exec, hm, hts, stepTask, hpcs, memStore]
  | mark id vec =>
    simp only [hpcs] at hpc
    obtain ⟨rfl, rfl, hset, hc, hm⟩ := hpc
    refine key (Action.task 0) ?_ ?_
    · intro s' hx
      simp [exec, hm, hts, stepTask, hpcs] at hx
      subst hx
      simp [scenarioRank, hm, hc, hts, hpcs, scenarioPcRank]
    · simp [exec, hm, hts, stepTask, hpcs]
  | send id vec =>
    simp only [hpcs] at hpc
    obtain ⟨rfl, rfl, hin, hc, hm⟩ := hpc
    refine key (Action.task 0) ?_ ?_
    · intro s' hx
      simp [exec, hm, hts, stepTask, hpcs, hc, hcap] at hx
      subst hx
      simp [scenarioRank, hm, hc, hts, hpcs, scenarioPcRank]
    · simp [exec, hm, hts, stepTask, hpcs, hc, hcap]
  | lenCheck id =>
    simp only [hpcs] at hpc
    exact hlate hpc.2.2
  | sendErr line e => simp [hpcs] at hpc
  | done line =>
    simp only [hpcs] at hpc
    exact hlate hpc

/-- In the concrete scenario `Search` can always still return `[A]`. -/
theorem scenario_finish (db : MemStore) (thr : ℚ) (maxNN : Int) (rest : List String)
    (hb : db.buckets 0 1 = "A" :: rest) (hvA : db.vectors "A" = some [1, 0])
    (hthr : 0 ≤ thr) (hmax : 1 ≤ maxNN) :
    ∀ (n : Nat) (s : State (List String)), scenarioRank s ≤ n → ScenarioInv s →
      ∃ more s', run memStore db (specDeps onePerm) (cfgScenario thr maxNN) [1, 0] more s
        = some s' ∧ s'.main = Main.returned [recordA] := by
  intro n
  induction n with
  | zero =>
    intro s hr hJ
    rcases scenario_main s hJ with hm | hm | hm
    · simp [scenarioRank, hm] at hr
      split at hr <;> omega
    · simp [scenarioRank, hm] at hr
    · exact ⟨[], s, rfl, hm⟩
  | succ n ih =>
    intro s hr hJ
    by_cases hm : s.main = Main.returned [recordA]
    · exact ⟨[], s, rfl, hm⟩
    · obtain ⟨a, s1, hx, hlt⟩ := scenario_progress db thr maxNN hvA hthr hmax s hJ hm
      have hJ1 := scenario_step db thr maxNN rest hb hvA hthr hmax s a s1 hJ hx
      obtain ⟨more, s', hrun, hret⟩ := ih s1 (by omega) hJ1
      exact ⟨a :: more, s', by simp only [run, hx, hrun], hret⟩

/-- C8: dimensionality 2, one permutation of one hyperplane `(1, 0)` with bias
0, Euclidian metric, threshold `>= 0`, `MaxNN >= 1`, in-memory store.  After
`Train` on `A = (1, 0)` and `B = (-1, 0)` has returned (under any schedule,
from any prior store), `A` is in the bucket of hash 1 and `B` in the bucket of
hash 0 only; `Search` with query `(1, 0)` has a schedule on which it returns
exactly `[A]`; on every schedule on which it returns, it returns `[A]` without
error; and whatever steps have been taken, the run can be continued to the
return of `[A]`. -/
theorem Search_scenario_returns_A (prior : MemStore) (thr : ℚ) (maxNN : Int)
    (hthr : 0 ≤ thr) (hmax : 1 ≤ maxNN) (tsched : List TrainAction)
    (ts : TrainState MemStore)
    (hT : trainRun memStore tsched
      (Train.init memStore prior (specDeps onePerm) [recordA, recordB]) = some ts)
    (hret : ts.ret = some none) :
    recordA.ID ∈ ts.db.buckets 0 1 ∧ recordB.ID ∈ ts.db.buckets 0 0 ∧
    recordB.ID ∉ ts.db.buckets 0 1 ∧
    (∃ sched, Search memStore ts.db (specDeps onePerm) (cfgScenario thr maxNN) [1, 0] sched
      = some ([recordA], none)) ∧
    (∀ sched out e,
      Search memStore ts.db (specDeps onePerm) (cfgScenario thr maxNN) [1, 0] sched
        = some (out, e) → out = [recordA] ∧ e = none) ∧
    (∀ sched s,
      run memStore ts.db (specDeps onePerm) (cfgScenario thr maxNN) [1, 0] sched
        (Search.init (List String) (specDeps onePerm) [1, 0]) = some s →
      ∃ more, Search memStore ts.db (specDeps onePerm) (cfgScenario thr maxNN) [1, 0]
        (sched ++ more) = some ([recordA], none)) := by
  have hnd : ([recordA, recordB].map (fun r => r.ID)).Nodup := by simp [recordA, recordB]
  obtain ⟨h1, h2, _, h4⟩ :=
    train_final prior (specDeps onePerm) [recordA, recordB] hnd tsched ts hT hret
  have hvA : ts.db.vectors "A" = some [1, 0] := h1 recordA (by simp)
  have hA : "A" ∈ ts.db.buckets 0 1 :=
    h2 recordA (by simp) (0, 1) (by simp [hashes_recordA])
  have hB : "B" ∈ ts.db.buckets 0 0 :=
    h2 recordB (by simp) (0, 0) (by simp [hashes_recordB])
  have hOnly : ∀ id ∈ ts.db.buckets 0 1, id = "A" := by
    intro id hid
    obtain ⟨r, hr, rfl, hph⟩ := h4 0 1 id hid
    simp only [List.mem_cons, List.mem_singleton, List.not_mem_nil, or_false] at hr
    rcases hr with rfl | rfl
    · rfl
    · simp [hashes_recordB] at hph
  have hb : ∃ rest, ts.db.buckets 0 1 = "A" :: rest := by
    cases hl : ts.db.buckets 0 1 with
    | nil => rw [hl] at hA; simp at hA
    | cons x rest =>
      have := hOnly x (by simp [hl])
      exact ⟨rest, by rw [this]⟩
  obtain ⟨rest, hb⟩ := hb
  have h0 : ¬ (0 : Int) = maxNN := by omega
  have hfirst : ∀ id, First memStore ts.db 0 1 id → id = "A" := by
    intro id hf
    have := hf.2
    simp only [memStore, hb, Prod.mk.injEq, and_true] at this
    exact this.symm
  have hcand : ∀ r, Candidate memStore ts.db (specDeps onePerm) (cfgScenario thr maxNN)
      [1, 0] 0 1 r → r = recordA := by
    intro r hc
    have hid := hfirst r.ID hc.1
    have hv := hc.2.1
    simp only [memStore, hid, hvA, Prod.mk.injEq, and_true] at hv
    cases r with
    | mk id vec =>
      simp only at hid hv
      subst hid; subst hv
      rfl
  refine ⟨hA, hB, ?_, ?_, ?_, ?_⟩
  · intro hBA
    have := hOnly _ hBA
    simp [recordB] at this
  · refine ⟨[Action.task 0, Action.task 0, Action.task 0, Action.task 0, Action.task 0,
      Action.task 0, Action.task 0, Action.recvClosest, Action.ret], ?_⟩
    simp [Search, run, exec, stepTask, Search.init, hashes_onePerm, memStore, hb, hvA,
      fetch_scenario thr maxNN hthr, cfgScenario_MaxNN, h0, recordA]
  · intro sched out e hS
    obtain ⟨s, hs, hm | hm⟩ := Search_some memStore ts.db (specDeps onePerm)
      (cfgScenario thr maxNN) [1, 0] sched out e hS
    · obtain ⟨hm, rfl⟩ := hm
      refine ⟨?_, rfl⟩
      obtain ⟨hlen, hall⟩ := Search_result_candidate memStore ts.db (specDeps onePerm)
        (cfgScenario thr maxNN) [1, 0] sched out hS
      rw [hashes_onePerm] at hlen hall
      cases out with
      | nil => simp at hlen
      | cons r rs =>
        cases rs with
        | nil =>
          obtain ⟨ph, hph, hc⟩ := hall r (by simp)
          simp only [List.mem_singleton] at hph
          subst hph
          rw [hcand r hc]
        | cons r2 rs2 => simp at hlen
    · exfalso
      have hmi := (reach_inv memStore ts.db (specDeps onePerm) (cfgScenario thr maxNN)
        [1, 0] sched s hs).main
      rw [hm.1, hashes_onePerm] at hmi
      obtain ⟨hne, ph, hph, hte⟩ := hmi
      simp only [List.mem_singleton] at hph
      subst hph
      rcases hte with ⟨_, id, vec, hf, hv, hneg⟩ | hte | ⟨id, hf, hte⟩
      · have hid := hfirst id hf
        subst hid
        simp only [memStore, hvA, Prod.mk.injEq, and_true] at hv
        subst hv
        rw [calcDist_scenario] at hneg
        exact lt_irrefl _ hneg
      · exact hne (by simp [hte, memStore])
      · have hid := hfirst id hf
        subst hid
        exact hne (by simp [hte, memStore, hvA])
  · intro sched s hs
    have hinit : ScenarioInv (Search.init (List String) (specDeps onePerm) [1, 0]) := by
      refine ⟨{ perm := 0, hash := 1, pc := PC.start, nexts := 0, sent := [] }, ?_, rfl, rfl,
        ?_, ?_, ?_⟩
      · simp [Search.init, hashes_onePerm]
      · simp [Search.init]
      · simp [Search.init, hashes_onePerm]
      · simp [Search.init, hashes_onePerm, scenarioFresh, scenarioEarly]
    have hJ := run_invariant memStore ts.db (specDeps onePerm) (cfgScenario thr maxNN) [1, 0]
      ScenarioInv
      (fun s a s' hs hx => scenario_step ts.db thr maxNN rest hb hvA hthr hmax s a s' hs hx)
      sched _ s hinit hs
    obtain ⟨more, s', hrun, hm⟩ :=
      scenario_finish ts.db thr maxNN rest hb hvA hthr hmax (scenarioRank s) s (le_refl _) hJ
    refine ⟨more, ?_⟩
    have happ := run_append memStore ts.db (specDeps onePerm) (cfgScenario thr maxNN) [1, 0]
      sched more _ s hs
    simp only [Search, happ, hrun, hm]

/-- C8 (witness): the scenario with threshold 0 and `MaxNN = 1`, from the empty
store. -/
theorem Search_scenario_returns_A_witness :
    ∃ ts, trainRun memStore
      [TrainAction.setVector 0, TrainAction.setVector 1, TrainAction.setHash 1 0,
       TrainAction.setHash 0 0, TrainAction.wait]
      (Train.init memStore emptyDb (specDeps onePerm) [recordA, recordB]) = some ts ∧
    ts.ret = some none ∧ (0 : ℚ) ≤ 0 ∧ (1 : Int) ≤ 1 ∧
    (recordA.ID ∈ ts.db.buckets 0 1 ∧ recordB.ID ∈ ts.db.buckets 0 0 ∧
    recordB.ID ∉ ts.db.buckets 0 1 ∧
    (∃ sched, Search memStore ts.db (specDeps onePerm) (cfgScenario 0 1) [1, 0] sched
      = some ([recordA], none)) ∧
    (∀ sched out e,
      Search memStore ts.db (specDeps onePerm) (cfgScenario 0 1) [1, 0] sched
        = some (out, e) → out = [recordA] ∧ e = none) ∧
    (∀ sched s,
      run memStore ts.db (specDeps onePerm) (cfgScenario 0 1) [1, 0] sched
        (Search.init (List String) (specDeps onePerm) [1, 0]) = some s →
      ∃ more, Search memStore ts.db (specDeps onePerm) (cfgScenario 0 1) [1, 0]
        (sched ++ more) = some ([recordA], none))) := by
  have hex : ∃ ts, trainRun memStore
      [TrainAction.setVector 0, TrainAction.setVector 1, TrainAction.setHash 1 0,
       TrainAction.setHash 0 0, TrainAction.wait]
      (Train.init memStore emptyDb (specDeps onePerm) [recordA, recordB]) = some ts ∧
      ts.ret = some none := by
    simp [trainRun, trainExec, Train.init, memStore, hashes_recordA, hashes_recordB,
      TrainTask.finished]
  obtain ⟨ts, hs, hret⟩ := hex
  exact ⟨ts, hs, hret, le_refl _, le_refl _,
    Search_scenario_returns_A emptyDb 0 1 (le_refl _) (le_refl _) _ ts hs hret⟩

end TrainClaims
end LSH
